import Mathlib

/-!
Verification development for the PyA3EDA repository.

The Python sources under `src/src/PyA3EDA` are shallowly embedded:
text is modelled as `List Char`, Python floats as exact rationals (`ℚ`),
Python dictionaries with a fixed key set as Lean structures, and the
specific regular expressions used by the parsers as deterministic
character-list matchers that follow the patterns in
`core/parsers/qchem_result_parser.py` (all of those patterns only
combine literals, whitespace classes, digit runs and unit tokens, so a
maximal-munch scan coincides with Python's leftmost-match semantics on
them).  Functions whose Python originals can raise are embedded with
`Except` / `Option` results.
-/

set_option maxRecDepth 4000

namespace PyA3EDA

/-! ## Basic text primitives (Python `str` operations on `List Char`) -/

/-- Python `\s` (ASCII whitespace as used by `re` on these inputs). -/
def isWs (c : Char) : Bool :=
  c = ' ' || c = '\t' || c = '\n' || c = '\r' || c = '\x0b' || c = '\x0c'

/-- `listStarts pat s` : `s` begins with `pat`. -/
def listStarts : List Char → List Char → Bool
  | [], _ => true
  | _ :: _, [] => false
  | a :: as, b :: bs => a = b && listStarts as bs

/-- Python `pat in s` (substring test). -/
def hasSub (pat : List Char) : List Char → Bool
  | [] => listStarts pat []
  | c :: rest => listStarts pat (c :: rest) || hasSub pat rest

/-- Python `str.lower` (ASCII). -/
def pyLower (s : List Char) : List Char := s.map Char.toLower

/-- Drop leading whitespace. -/
def dropWs : List Char → List Char
  | [] => []
  | c :: rest => if isWs c then dropWs rest else c :: rest

/-- Python `str.rstrip()`. -/
def pyRstrip (s : List Char) : List Char := ((dropWs s.reverse)).reverse

/-- Python truthiness of `str.strip()`: some non-whitespace character exists. -/
def hasNonWs (s : List Char) : Bool := s.any (fun c => !isWs c)

/-! ## Status classifier states

`core/parsers/qchem_status_parser.py` and `core/status/status_checker.py`
return status strings; the distinct strings form this enumeration
(`terminated`, `CRASH`, `running`, `nofile`, `SUCCESSFUL`, `empty`,
`VALIDATION`).  The human-readable detail component of the returned pair
is not modelled; the functions below are the state projections. -/

inductive QStat where
  | terminated
  | crash
  | running
  | nofile
  | successful
  | empty
  | validation
  deriving DecidableEq, Repr

/-- Marker `'CANCELLED AT'`. -/
def cancelledMarker : List Char := "CANCELLED AT".data

/-- Marker `'Error in Q-Chem run'`. -/
def errorRunMarker : List Char := "Error in Q-Chem run".data

/-- Marker `'Aborted'`. -/
def abortedMarker : List Char := "Aborted".data

/-- Marker `'Running on'`. -/
def runningOnMarker : List Char := "Running on".data

/-- Marker `'Thank you very much'`. -/
def thankYouMarker : List Char := "Thank you very much".data

/-- Marker `'Q-Chem fatal error occurred'`. -/
def fatalErrorMarker : List Char := "Q-Chem fatal error occurred".data

/-- Marker `'SGeom Failed'`. -/
def sgeomMarker : List Char := "SGeom Failed".data

/-- Marker `'SCF failed to converge'`. -/
def scfFailMarker : List Char := "SCF failed to converge".data

/-- Marker `'Insufficient memory'`. -/
def memoryMarker : List Char := "Insufficient memory".data

/-- Marker `'killed'`. -/
def killedMarker : List Char := "killed".data

/-- Marker `'terminating'`. -/
def terminatingMarker : List Char := "terminating".data

/-- State projection of `parse_qchem_status`
(`core/parsers/qchem_status_parser.py`, lines 10-102): the branch
structure is reproduced exactly; only the detail strings are dropped. -/
def parseQchemStatusState (content errContent : List Char)
    (submissionExists : Bool) : QStat :=
  if hasSub cancelledMarker errContent then .terminated
  else if hasSub errorRunMarker errContent
       || hasSub abortedMarker errContent then .crash
  else if submissionExists then .running
  else if content.isEmpty then .nofile
  else if hasSub runningOnMarker content
       && !hasSub thankYouMarker content then .running
  else if hasSub thankYouMarker content then .successful
  else if hasSub fatalErrorMarker content then .crash
  else if hasSub sgeomMarker content then .crash
  else if hasSub scfFailMarker content then .crash
  else if hasSub memoryMarker content then .crash
  else if hasSub killedMarker (pyLower content)
       || hasSub terminatingMarker (pyLower content) then .terminated
  else if hasNonWs content then .crash
  else .empty

/-! ## Deterministic matchers for the `PATTERNS` table

`core/parsers/qchem_result_parser.py` defines a table of regular
expressions combining literals, `\s+`/`\s*`, `[-+]?\d+\.\d+`, `\d+`,
unit tokens `[A-Za-z][A-Za-z0-9./\-]*` and (for the energy patterns) an
optional unit group followed by `\s*$` in MULTILINE mode.  Characters of
these classes never overlap at the decision points of those patterns, so
greedy maximal-munch matching is equivalent to Python's backtracking
search on them; the two genuinely backtracking spots (the optional unit
group of the energy patterns, and `\s*\n`/`\s*$`) are implemented with
the exact alternatives Python would try. -/

def isDigitCh (c : Char) : Bool := '0' ≤ c && c ≤ '9'

def isAlphaCh (c : Char) : Bool := ('A' ≤ c && c ≤ 'Z') || ('a' ≤ c && c ≤ 'z')

/-- Character class of the unit token `[A-Za-z0-9./\-]`. -/
def isUnitCh (c : Char) : Bool := isAlphaCh c || isDigitCh c || c = '.' || c = '/' || c = '-'

def takeDigits : List Char → List Char × List Char
  | [] => ([], [])
  | c :: rest =>
    if isDigitCh c then
      let (d, r) := takeDigits rest
      (c :: d, r)
    else ([], c :: rest)

def takeUnitChars : List Char → List Char × List Char
  | [] => ([], [])
  | c :: rest =>
    if isUnitCh c then
      let (d, r) := takeUnitChars rest
      (c :: d, r)
    else ([], c :: rest)

def digitsToNat (ds : List Char) : Nat :=
  ds.foldl (fun n c => 10 * n + (c.toNat - 48)) 0

/-- Match a literal, returning the remainder. -/
def matchLit : List Char → List Char → Option (List Char)
  | [], s => some s
  | _ :: _, [] => none
  | a :: as, b :: bs => if a = b then matchLit as bs else none

/-- `\s+` (greedy). -/
def matchWs1 : List Char → Option (List Char)
  | [] => none
  | c :: rest => if isWs c then some (dropWs rest) else none

/-- `\d+` (greedy), value as `Nat` (Python `int`). -/
def matchNat1 (s : List Char) : Option (Nat × List Char) :=
  let (d, r) := takeDigits s
  if d.isEmpty then none else some (digitsToNat d, r)

/-- The rational denoted by a parsed decimal: sign, integer part, and
fraction digits (the exact value of the Python `float` literal before
IEEE-754 rounding). -/
def pyFloatOf (neg : Bool) (ip : Nat) (fracDigits : List Char) : ℚ :=
  (if neg then (-1 : ℚ) else 1)
    * ((ip : ℚ) + (digitsToNat fracDigits : ℚ) / (10 : ℚ) ^ fracDigits.length)

/-- `[-+]?\d+\.\d+`, value as exact rational (Python `float` literal). -/
def matchNum (s : List Char) : Option (ℚ × List Char) :=
  let (neg, s1) : Bool × List Char :=
    match s with
    | '-' :: r => (true, r)
    | '+' :: r => (false, r)
    | r => (false, r)
  match matchNat1 s1 with
  | none => none
  | some (ip, s2) =>
    match s2 with
    | '.' :: s3 =>
      let (d, r) := takeDigits s3
      if d.isEmpty then none
      else some (pyFloatOf neg ip d, r)
    | _ => none

/-- `[A-Za-z][A-Za-z0-9./\-]*` (greedy). -/
def matchUnit : List Char → Option (List Char × List Char)
  | [] => none
  | c :: rest =>
    if isAlphaCh c then
      let (u, r) := takeUnitChars rest
      some (c :: u, r)
    else none

/-- `\s*$` in MULTILINE mode: some whitespace, then a line end
(a following `'\n'` or the end of the text). -/
def eolCheck : List Char → Bool
  | [] => true
  | c :: rest => if c = '\n' then true else if isWs c then eolCheck rest else false

/-- Attempt, at the current position, the energy pattern
`LIT\s+([-+]?\d+\.\d+)(?:\s+([A-Za-z][A-Za-z0-9./\-]*))?\s*$`
(the shapes of `final_energy` and `final_energy_fallback`). -/
def matchEnergyAt (lit : List Char) (s : List Char) : Option (ℚ × Option (List Char)) :=
  (matchLit lit s).bind fun s1 =>
  (matchWs1 s1).bind fun s2 =>
  (matchNum s2).bind fun vs =>
    let withUnit : Option (List Char) :=
      (matchWs1 vs.2).bind fun s4 =>
      (matchUnit s4).bind fun us =>
      if eolCheck us.2 then some us.1 else none
    match withUnit with
    | some u => some (vs.1, some u)
    | none => if eolCheck vs.2 then some (vs.1, none) else none

/-- `re.search`: try the matcher at each position, leftmost first. -/
def searchO {α : Type} (m : List Char → Option α) : List Char → Option α
  | [] => m []
  | c :: rest =>
    match m (c :: rest) with
    | some a => some a
    | none => searchO m rest

/-- Literal of `PATTERNS["final_energy"]`. -/
def finalEnergyLit : List Char := "Final energy is".data

/-- Literal of `PATTERNS["final_energy_fallback"]`. -/
def totalEnergyLit : List Char := "Total energy =".data

/-- `PATTERNS["final_energy"]` searched over the content. -/
def searchFinalEnergy : List Char → Option (ℚ × Option (List Char)) :=
  searchO (matchEnergyAt finalEnergyLit)

/-- `PATTERNS["final_energy_fallback"]` searched over the content. -/
def searchTotalEnergy : List Char → Option (ℚ × Option (List Char)) :=
  searchO (matchEnergyAt totalEnergyLit)

/-- `LIT\s+(num)\s+(unit)` (shape of the enthalpy/entropy/ZPE patterns). -/
def matchValUnitAt (lit : List Char) (s : List Char) : Option (ℚ × List Char) :=
  (matchLit lit s).bind fun s1 =>
  (matchWs1 s1).bind fun s2 =>
  (matchNum s2).bind fun vs =>
  (matchWs1 vs.2).bind fun s4 =>
  (matchUnit s4).bind fun us =>
  some (vs.1, us.1)

def searchValUnit (lit : List Char) : List Char → Option (ℚ × List Char) :=
  searchO (matchValUnitAt lit)

/-- `PATTERNS["optimization_status"]`:
`(OPTIMIZATION CONVERGED|TRANSITION STATE CONVERGED)`, leftmost match,
first alternative preferred at equal positions. -/
def searchAlt2 (a b : List Char) : List Char → Option (List Char)
  | [] =>
    if listStarts a [] then some a
    else if listStarts b [] then some b else none
  | c :: rest =>
    if listStarts a (c :: rest) then some a
    else if listStarts b (c :: rest) then some b
    else searchAlt2 a b rest

/-- `PATTERNS["thermodynamics"]`:
`STANDARD THERMODYNAMIC QUANTITIES AT\s+(num)\s*K\s+AND\s+(num)\s*ATM`. -/
def matchThermoAt (s : List Char) : Option (ℚ × ℚ) :=
  (matchLit "STANDARD THERMODYNAMIC QUANTITIES AT".data s).bind fun s1 =>
  (matchWs1 s1).bind fun s2 =>
  (matchNum s2).bind fun ts =>
  (matchLit "K".data (dropWs ts.2)).bind fun s4 =>
  (matchWs1 s4).bind fun s5 =>
  (matchLit "AND".data s5).bind fun s6 =>
  (matchWs1 s6).bind fun s7 =>
  (matchNum s7).bind fun ps =>
  (matchLit "ATM".data (dropWs ps.2)).bind fun _ =>
  some (ts.1, ps.1)

/-- `PATTERNS["qrrho_parameters"]`:
`Quasi-RRHO corrections using alpha\s*=\s*(\d+),\s*and omega\s*=\s*(\d+)\s*cm\^-1`. -/
def matchQrrhoAt (s : List Char) : Option (Nat × Nat) :=
  (matchLit "Quasi-RRHO corrections using alpha".data s).bind fun s1 =>
  (matchLit "=".data (dropWs s1)).bind fun s2 =>
  (matchNat1 (dropWs s2)).bind fun as =>
  (matchLit ",".data as.2).bind fun s4 =>
  (matchLit "and omega".data (dropWs s4)).bind fun s5 =>
  (matchLit "=".data (dropWs s5)).bind fun s6 =>
  (matchNat1 (dropWs s6)).bind fun os =>
  (matchLit "cm^-1".data (dropWs os.2)).bind fun _ =>
  some (as.1, os.1)

/-- `PATTERNS["imaginary_frequencies"]`:
`This Molecule has\s+(\d+)\s+Imaginary Frequencies`. -/
def matchImagAt (s : List Char) : Option Nat :=
  (matchLit "This Molecule has".data s).bind fun s1 =>
  (matchWs1 s1).bind fun s2 =>
  (matchNat1 s2).bind fun ns =>
  (matchWs1 ns.2).bind fun s4 =>
  (matchLit "Imaginary Frequencies".data s4).bind fun _ =>
  some ns.1

/-! ## Missing parser helpers, modelled from the spec

`status_checker.py` and `data_extractor.py` import
`parse_optimization_status` and `parse_imaginary_frequencies` from
`qchem_result_parser`, but those two functions are absent from the
sources provided; only the `PATTERNS` table they must use and their
call sites are available. -/

/-- Marker `'OPTIMIZATION CONVERGED'`. -/
def optConvergedMarker : List Char := "OPTIMIZATION CONVERGED".data

/-- Marker `'TRANSITION STATE CONVERGED'`. -/
def tsConvergedMarker : List Char := "TRANSITION STATE CONVERGED".data

/-- Marker `'TRANSITION STATE'`. -/
def tsMarker : List Char := "TRANSITION STATE".data

/-- Modelled from the spec: `parse_optimization_status` is missing from
the provided sources.  Per §4.2 ("re-examines the output for convergence
type (normal minimum vs transition-state)") and its call site it returns
the text matched by `PATTERNS["optimization_status"]` (the value stored
under the key `"Optimization Status"`), or nothing when the pattern does
not match. -/
def parseOptimizationStatus (content : List Char) : Option (List Char) :=
  searchAlt2 optConvergedMarker tsConvergedMarker content

/-- Modelled from the spec: `parse_imaginary_frequencies` is missing from
the provided sources.  Per §4.2 ("imaginary-frequency count") and its
call site it returns the integer captured by
`PATTERNS["imaginary_frequencies"]` (stored under the key
`"Imaginary Frequencies"`), or nothing when the pattern does not match. -/
def parseImaginaryFrequencies (content : List Char) : Option Nat :=
  searchO matchImagAt content

/-! ## `get_status_for_file` (`core/status/status_checker.py`, lines 27-106) -/

/-- The metadata entries read by `get_status_for_file`
(`metadata.get("Mode")` and `metadata.get("Branch")`). -/
structure FileMeta where
  mode : List Char
  branch : List Char
  deriving DecidableEq, Repr

inductive ConvType where
  | ts
  | opt
  | unknown
  deriving DecidableEq, Repr

/-- The `convergence_type` computation inside `get_status_for_file`. -/
def convergenceOf (optStatus : Option (List Char)) : ConvType :=
  match optStatus with
  | none => .unknown
  | some s =>
    if hasSub tsMarker s then .ts
    else if hasSub optConvergedMarker s then .opt
    else .unknown

/-- State projection of `get_status_for_file`: file reading is abstracted
into the already-read `content` / `errContent` texts and the
`submissionExists` flag (the two glob patterns); the detail strings are
dropped.  The enhanced-validation branch follows lines 60-104 of
`status_checker.py`. -/
def getStatusForFileState (content errContent : List Char)
    (submissionExists : Bool) (metadata : Option FileMeta) : QStat :=
  let base := parseQchemStatusState content errContent submissionExists
  match metadata with
  | none => base
  | some md =>
    if base = QStat.successful ∧ md.mode = "opt".data ∧ content ≠ [] then
      let optStatus := parseOptimizationStatus content
      let imagFreq := parseImaginaryFrequencies content
      if optStatus = none ∧ imagFreq = none then base
      else
        let convergenceType := convergenceOf optStatus
        let imagCount := imagFreq.getD 0
        -- `validation_failed` is `imagCount ≠ 1` tests on the two convergence
        -- kinds for an expected-TS branch, `imagCount > 0` otherwise; the
        -- two-step Python computation (flag, then `if validation_failed`)
        -- is folded into one condition.
        if (pyLower md.branch = "ts".data
              ∧ ((convergenceType = .opt ∧ imagCount ≠ 1)
                 ∨ (convergenceType = .ts ∧ imagCount ≠ 1)))
           ∨ (¬ pyLower md.branch = "ts".data ∧ imagCount > 0) then
          .validation
        else base
    else base

/-- `get_status_for_file` including the file-reading layer:
`content = read_text(output_file) if output_file.exists() else ""` with
`read_text` right-stripping what it reads
(`core/utils/file_utils.py`, line 17), and likewise for the error file. -/
def getStatusViaFiles (outExists : Bool) (rawOut : List Char)
    (errExists : Bool) (rawErr : List Char) (submissionExists : Bool)
    (metadata : Option FileMeta) : QStat :=
  getStatusForFileState
    (if outExists then pyRstrip rawOut else [])
    (if errExists then pyRstrip rawErr else [])
    submissionExists metadata

/-! ## Constants (`core/constants.py`)

Python float literals are embedded as the exact rationals they denote;
derived constants are the same products the Python class computes.
The IEEE-754 rounding of those products differs from the exact values
by a relative error around `1e-16`, far below every tolerance compared
against in this development. -/

namespace Constants

/-- `HARTREE_TO_J = 4.3597447222060e-18` (CODATA 2022). -/
def HARTREE_TO_J : ℚ := 43597447222060 / 10 ^ 31

/-- `TO_KILO = 1.0e-3`. -/
def TO_KILO : ℚ := 1 / 1000

/-- `HARTREE_TO_KJ = HARTREE_TO_J * TO_KILO`. -/
def HARTREE_TO_KJ : ℚ := HARTREE_TO_J * TO_KILO

/-- `AVOGADRO = 6.02214076e23`. -/
def AVOGADRO : ℚ := 602214076 * 10 ^ 15

/-- `HARTREE_TO_KJMOL = HARTREE_TO_KJ * AVOGADRO`. -/
def HARTREE_TO_KJMOL : ℚ := HARTREE_TO_KJ * AVOGADRO

/-- `KJMOL_TO_KCALMOL = 1.0/4.184`. -/
def KJMOL_TO_KCALMOL : ℚ := 1 / (4184 / 1000)

/-- `HARTREE_TO_KCALMOL = HARTREE_TO_KJMOL * KJMOL_TO_KCALMOL`. -/
def HARTREE_TO_KCALMOL : ℚ := HARTREE_TO_KJMOL * KJMOL_TO_KCALMOL

/-- `KJMOL_TO_HARTREE = 1.0 / 2625.5311584660003`. -/
def KJMOL_TO_HARTREE : ℚ := 1 / (26255311584660003 / 10 ^ 13)

/-- `ATM_TO_PA = 101325.0`. -/
def ATM_TO_PA : ℚ := 101325

end Constants

/-! ## Unit conversion (`core/utils/unit_converter.py`) -/

/-- `convert_unit` (`core/utils/unit_converter.py`, lines 10-89). -/
def convertUnit (value : ℚ) (unit targetUnit : List Char) : ℚ :=
  let ul := pyLower unit
  let tl := pyLower targetUnit
  let hartreeUnits := ["hartree".data, "ha".data, "a.u.".data]
  let kcalmolUnits := ["kcal/mol".data]
  let kjmolUnits := ["kj/mol".data]
  let jmolUnits := ["j/mol".data]
  let calmolkUnits := ["cal/mol.k".data]
  let kcalmolkUnits := ["kcal/mol.k".data]
  let atmUnits := ["atm".data]
  let paUnits := ["pa".data, "pascal".data]
  if (ul ∈ hartreeUnits ∧ tl ∈ hartreeUnits)
     ∨ (ul ∈ kcalmolUnits ∧ tl ∈ kcalmolUnits)
     ∨ (ul ∈ kjmolUnits ∧ tl ∈ kjmolUnits)
     ∨ (ul ∈ jmolUnits ∧ tl ∈ jmolUnits)
     ∨ (ul ∈ calmolkUnits ∧ tl ∈ calmolkUnits)
     ∨ (ul ∈ kcalmolkUnits ∧ tl ∈ kcalmolkUnits)
     ∨ (ul ∈ atmUnits ∧ tl ∈ atmUnits)
     ∨ (ul ∈ paUnits ∧ tl ∈ paUnits) then value
  else if ul ∈ hartreeUnits ∧ tl ∈ kcalmolUnits then
    value * Constants.HARTREE_TO_KCALMOL
  else if ul ∈ kcalmolUnits ∧ tl ∈ hartreeUnits then
    value / Constants.HARTREE_TO_KCALMOL
  else if ul ∈ hartreeUnits ∧ tl ∈ kjmolUnits then
    value * Constants.HARTREE_TO_KJMOL
  else if ul ∈ kjmolUnits ∧ tl ∈ hartreeUnits then
    value * Constants.KJMOL_TO_HARTREE
  else if ul ∈ kjmolUnits ∧ tl ∈ kcalmolUnits then
    value * Constants.KJMOL_TO_HARTREE * Constants.HARTREE_TO_KCALMOL
  else if ul ∈ kcalmolUnits ∧ tl ∈ kjmolUnits then
    value / Constants.KJMOL_TO_KCALMOL
  else if ul ∈ calmolkUnits ∧ tl ∈ kcalmolkUnits then
    value * Constants.TO_KILO
  else if ul ∈ jmolUnits ∧ tl ∈ kcalmolUnits then
    value * Constants.TO_KILO * Constants.KJMOL_TO_KCALMOL
  else if ul ∈ atmUnits ∧ tl ∈ paUnits then
    value * Constants.ATM_TO_PA
  else if ul ∈ paUnits ∧ tl ∈ atmUnits then
    value / Constants.ATM_TO_PA
  else value

/-- Modelled from the spec: `convert_energy_unit` is imported from
`core/utils/unit_converter.py` by the parsers and extractors but is
absent from that module as provided, which defines `convert_unit` with
the identical signature and docstring role ("converted to the canonical
unit at the point of extraction", §4.3); it is modelled as that
function. -/
def convertEnergyUnit (value : ℚ) (unit targetUnit : List Char) : ℚ :=
  convertUnit value unit targetUnit

/-! ## `re.findall` over the SMD patterns -/

/-- `re.findall` keeping captured values: scan left to right, resuming
after each (non-empty) match; the fuel argument bounds the recursion by
the text length, which every matcher used here respects because each
consumes at least one character. -/
def findallAux {α : Type} (m : List Char → Option (α × List Char)) :
    Nat → List Char → List α
  | 0, _ => []
  | _ + 1, [] =>
    match m [] with
    | some (a, _) => [a]
    | none => []
  | fuel + 1, c :: rest =>
    match m (c :: rest) with
    | some (a, r) => a :: findallAux m fuel r
    | none => findallAux m fuel rest

def findallVals {α : Type} (m : List Char → Option (α × List Char))
    (s : List Char) : List α :=
  findallAux m (s.length + 1) s

/-- Literals of `PATTERNS["smd_g_enp"]`. -/
def gEnpHeadLit : List Char := "(3)".data

def gEnpBodyLit : List Char := "G-ENP(liq) elect-nuc-pol free energy of system".data

/-- Literals of `PATTERNS["smd_g_s"]`. -/
def gSHeadLit : List Char := "(6)".data

def gSBodyLit : List Char := "G-S(liq) free energy of system".data

def auLit : List Char := "a.u.".data

/-- Literals of `PATTERNS["smd_cds_summary"]`. -/
def gCdsLit : List Char := "G_CDS".data

def eqSignLit : List Char := "=".data

def kcalPerMolLit : List Char := "kcal/mol".data

/-- Literal of `PATTERNS["smd_cds_sp_total"]`. -/
def spTotalLit : List Char := "Total:".data

/-- `HEAD\s+BODY\s+(num)\s+a\.u\.` (shape of `smd_g_enp` / `smd_g_s`). -/
def matchSmdAuAt (head body : List Char) (s : List Char) : Option (ℚ × List Char) :=
  (matchLit head s).bind fun s1 =>
  (matchWs1 s1).bind fun s2 =>
  (matchLit body s2).bind fun s3 =>
  (matchWs1 s3).bind fun s4 =>
  (matchNum s4).bind fun vs =>
  (matchWs1 vs.2).bind fun s6 =>
  (matchLit auLit s6).bind fun s7 =>
  some (vs.1, s7)

/-- `G_CDS\s+=\s+(num)\s+kcal/mol` (`smd_cds_summary`). -/
def matchCdsSummaryAt (s : List Char) : Option (ℚ × List Char) :=
  (matchLit gCdsLit s).bind fun s1 =>
  (matchWs1 s1).bind fun s2 =>
  (matchLit eqSignLit s2).bind fun s3 =>
  (matchWs1 s3).bind fun s4 =>
  (matchNum s4).bind fun vs =>
  (matchWs1 vs.2).bind fun s6 =>
  (matchLit kcalPerMolLit s6).bind fun s7 =>
  some (vs.1, s7)

/-- Tail `\s*\n\s*-+` of `smd_cds_sp_total`: the whitespace run must
contain a newline before the first dash; `-+` is consumed greedily. -/
def dropDashes : List Char → List Char
  | '-' :: r => dropDashes r
  | r => r

def spTotalTail : Bool → List Char → Option (List Char)
  | _, [] => none
  | seenNl, c :: rest =>
    if isWs c then spTotalTail (seenNl || c = '\n') rest
    else if c = '-' ∧ seenNl then some (dropDashes rest)
    else none

/-- `Total:\s+(num)\s*\n\s*-+` (`smd_cds_sp_total`). -/
def matchSpTotalAt (s : List Char) : Option (ℚ × List Char) :=
  (matchLit spTotalLit s).bind fun s1 =>
  (matchWs1 s1).bind fun s2 =>
  (matchNum s2).bind fun vs =>
  (spTotalTail false vs.2).map fun rest => (vs.1, rest)

/-! ## `parse_smd_cds_energy`
(`core/parsers/qchem_result_parser.py`, lines 223-290) -/

/-- The dictionary returned by `parse_smd_cds_energy`: keys
`G_CDS (Ha)`, `G_CDS (kcal/mol)`, `G_CDS_Source` always, and the
validation keys only when the corresponding comparison ran. -/
structure CdsParserData where
  gcdsHa : ℚ
  gcdsKcal : ℚ
  source : List Char
  optSummaryMatch : Option Bool
  optSummaryDiff : Option ℚ
  spTotalMatch : Option Bool
  spTotalDiff : Option ℚ
  deriving DecidableEq, Repr

def sourceComponents : List Char := "opt_calculated_from_components".data

def sourceOptSummary : List Char := "opt_summary_value".data

def haLit : List Char := "Ha".data

/-- `parse_smd_cds_energy(opt_content, sp_content)`: primary CDS value
from the last `G-S` minus the last `G-ENP` occurrence, validated (but
never rejected) against the last OPT summary at `1e-4` and the last SP
total at `1e-3`; falls back to the OPT summary when the components are
missing; `None` when no source matches.  Python's truthiness tests on
the optional strings (`if opt_content:`) treat an empty string like an
absent one. -/
def parseSmdCdsEnergyText (optContent spContent : Option (List Char)) :
    Option CdsParserData :=
  let optPart : Option (ℚ × List Char × Option Bool × Option ℚ) :=
    match optContent with
    | none => none
    | some oc =>
      if oc = [] then none
      else
        let gs := findallVals (matchSmdAuAt gSHeadLit gSBodyLit) oc
        let genp := findallVals (matchSmdAuAt gEnpHeadLit gEnpBodyLit) oc
        let summary := findallVals matchCdsSummaryAt oc
        if gs ≠ [] ∧ genp ≠ [] then
          let cdsHartree := gs.getLastD 0 - genp.getLastD 0
          let primary := convertEnergyUnit cdsHartree haLit kcalPerMolLit
          if summary ≠ [] then
            let summaryVal := summary.getLastD 0
            some (primary, sourceComponents,
              some (decide (|primary - summaryVal| ≤ 1 / 10000)),
              some |primary - summaryVal|)
          else
            some (primary, sourceComponents, none, none)
        else if summary ≠ [] then
          some (summary.getLastD 0, sourceOptSummary, none, none)
        else none
  match optPart with
  | none => none
  | some (primary, source, m1, d1) =>
    let spv : Option Bool × Option ℚ :=
      match spContent with
      | none => (none, none)
      | some sc =>
        if sc = [] then (none, none)
        else
          let tot := findallVals matchSpTotalAt sc
          if tot ≠ [] then
            let spVal := tot.getLastD 0
            (some (decide (|primary - spVal| ≤ 1 / 1000)), some |primary - spVal|)
          else (none, none)
    some { gcdsHa := convertEnergyUnit primary kcalPerMolLit haLit,
           gcdsKcal := primary, source := source,
           optSummaryMatch := m1, optSummaryDiff := d1,
           spTotalMatch := spv.1, spTotalDiff := spv.2 }

/-! ## `parse_thermodynamic_data`
(`core/parsers/qchem_result_parser.py`, lines 106-201) -/

/-- Literals of the enthalpy/entropy/ZPE patterns. -/
def qrrhoEnthalpyLit : List Char := "QRRHO-Total Enthalpy:".data

def totalEnthalpyLit : List Char := "Total Enthalpy:".data

def qrrhoEntropyLit : List Char := "QRRHO-Total Entropy:".data

def totalEntropyLit : List Char := "Total Entropy:".data

def zpeLit : List Char := "Zero point vibrational energy:".data

def kcalPerMolKLit : List Char := "kcal/mol.K".data

/-- `get_value_with_fallback` specialised to the energy patterns
(optional unit group, `default_unit="Ha"`): `(value, unit,
fallback_used)`, or nothing when neither pattern matches. -/
def getValueWithFallbackE (content : List Char) : Option (ℚ × List Char × Bool) :=
  match searchFinalEnergy content with
  | some (v, u) => some (v, u.getD haLit, false)
  | none =>
    match searchTotalEnergy content with
    | some (v, u) => some (v, u.getD haLit, true)
    | none => none

/-- `get_value_with_fallback` specialised to the patterns whose unit
group is mandatory (enthalpy and entropy pairs, `default_unit=None`). -/
def getValueWithFallbackVU (primaryLit fallbackLit : List Char)
    (content : List Char) : Option (ℚ × List Char × Bool) :=
  match searchValUnit primaryLit content with
  | some (v, u) => some (v, u, false)
  | none =>
    match searchValUnit fallbackLit content with
    | some (v, u) => some (v, u, true)
    | none => none

/-- The dictionary built by `parse_thermodynamic_data`.  The Python keys
`E (<unit>)` / `Zero Point Energy (<unit>)` carry the unit in the key
text; they are embedded as unit-value pairs.  (When the captured energy
unit is literally `kcal/mol` the two Python keys coincide, but the
converted value equals the raw one there, so the two fields still agree
with the dictionary.) -/
structure ParsedThermo where
  eUnit : List Char
  eOrig : ℚ
  eKcal : ℚ
  enthalpyCorr : Option ℚ
  entropyCorr : Option ℚ
  optimizationStatus : Option (List Char)
  temperature : Option ℚ
  pressure : Option ℚ
  alpha : Option Nat
  omega : Option Nat
  imagFreq : Option Nat
  zpe : Option (List Char × ℚ)
  cds : Option CdsParserData
  hKcal : Option ℚ
  gKcal : Option ℚ
  fallbackUsed : Bool
  deriving DecidableEq, Repr

/-- `parse_thermodynamic_data(content)`: energy is mandatory (with
fallback), every other quantity optional; `H`/`G` are derived as in
`_calculate_derived_values` — the `"CDS Energy (kcal/mol)"` base-energy
key tested there is never written by any parser, so the base energy is
always `E (kcal/mol)`; the `Fallback Used` flag records whether any of
the energy/enthalpy/entropy extractions used its fallback pattern. -/
def parseThermodynamicData (content : List Char) : Option ParsedThermo :=
  match getValueWithFallbackE content with
  | none => none
  | some (ev, eu, efb) =>
    let eKcal := convertEnergyUnit ev eu kcalPerMolLit
    let enth := getValueWithFallbackVU qrrhoEnthalpyLit totalEnthalpyLit content
    let entr := getValueWithFallbackVU qrrhoEntropyLit totalEntropyLit content
    let enthalpyCorr := enth.map fun t => convertEnergyUnit t.1 t.2.1 kcalPerMolLit
    let entropyCorr := entr.map fun t => convertEnergyUnit t.1 t.2.1 kcalPerMolKLit
    let fallbackUsed := efb
      || (match enth with | some t => t.2.2 | none => false)
      || (match entr with | some t => t.2.2 | none => false)
    let thermo := searchO matchThermoAt content
    let qrrho := searchO matchQrrhoAt content
    let zpe := (searchValUnit zpeLit content).map fun t => (t.2, t.1)
    let hK := enthalpyCorr.map fun hc => eKcal + hc
    let gK :=
      match hK, thermo, entropyCorr with
      | some h, some tp, some s => some (h - tp.1 * s)
      | _, _, _ => none
    some { eUnit := eu, eOrig := ev, eKcal := eKcal,
           enthalpyCorr := enthalpyCorr, entropyCorr := entropyCorr,
           optimizationStatus := parseOptimizationStatus content,
           temperature := thermo.map Prod.fst, pressure := thermo.map Prod.snd,
           alpha := qrrho.map Prod.fst, omega := qrrho.map Prod.snd,
           imagFreq := parseImaginaryFrequencies content,
           zpe := zpe, cds := parseSmdCdsEnergyText (some content) none,
           hKcal := hK, gKcal := gK, fallbackUsed := fallbackUsed }

/-! ## `_extract_smd_cds_energy`
(`core/extractors/data_extractor.py`, lines 387-446) -/

/-- Modelled from the spec: `parse_smd_cds_raw_values` is imported from
`qchem_result_parser` by `data_extractor.py` but absent from that module
as provided.  Per its call sites and the docstring of
`parse_smd_cds_energy` it extracts the final (last-occurrence) raw SMD
quantities from one text — keys `g_s_final`, `g_enp_final`,
`cds_summary_final`, `cds_sp_total_final`, each present only when its
pattern matched — so a text is represented here directly by that
dictionary of optional values. -/
structure SmdRawValues where
  gSFinal : Option ℚ
  gEnpFinal : Option ℚ
  cdsSummaryFinal : Option ℚ
  cdsSpTotalFinal : Option ℚ
  deriving DecidableEq, Repr

/-- Python truthiness of the `parse_smd_cds_raw_values` result dict:
non-empty iff some key is present. -/
def SmdRawValues.nonempty (r : SmdRawValues) : Prop :=
  r.gSFinal ≠ none ∨ r.gEnpFinal ≠ none ∨ r.cdsSummaryFinal ≠ none
    ∨ r.cdsSpTotalFinal ≠ none

instance (r : SmdRawValues) : Decidable r.nonempty := by
  unfold SmdRawValues.nonempty
  infer_instance

/-- The dictionary returned by a successful `_extract_smd_cds_energy`:
`G_CDS (Ha)`, `G_CDS (kcal/mol)`, plus the validation keys when their
comparisons ran. -/
structure CdsExtractorData where
  gcdsHa : ℚ
  gcdsKcal : ℚ
  optSummaryMatch : Option Bool
  optSummaryDiff : Option ℚ
  spTotalMatch : Option Bool
  spTotalDiff : Option ℚ
  deriving DecidableEq, Repr

/-- `_extract_smd_cds_energy(opt_content, sp_content)` of
`data_extractor.py`: the two optional texts are represented by their
parsed raw SMD values (`none` standing for an absent or empty text or
one with no matches, since `parse_smd_cds_raw_values` returning an empty
dict fails the `if opt_raw_data:` truthiness test just as a missing text
fails `if opt_content:`).  The local variable `cds_hartree` is assigned
only on the component path, but the result dictionary always reads it
for the `"G_CDS (Ha)"` key, so the summary-fallback path raises
`UnboundLocalError`; that exception is the `.error` result. -/
def extractSmdCdsEnergy (optRaw spRaw : Option SmdRawValues) :
    Except Unit (Option CdsExtractorData) :=
  -- primary value, the `cds_hartree` binding when it was assigned, validation 1
  let optPart : Option (ℚ × Option ℚ × Option Bool × Option ℚ) :=
    match optRaw with
    | none => none
    | some r =>
      if r.nonempty then
        match r.gSFinal, r.gEnpFinal with
        | some gs, some genp =>
          let cdsHartree := gs - genp
          let primary := convertEnergyUnit cdsHartree haLit kcalPerMolLit
          match r.cdsSummaryFinal with
          | some summaryVal =>
            some (primary, some cdsHartree,
              some (decide (|primary - summaryVal| ≤ 1 / 10000)),
              some |primary - summaryVal|)
          | none => some (primary, some cdsHartree, none, none)
        | _, _ =>
          match r.cdsSummaryFinal with
          | some summaryVal => some (summaryVal, none, none, none)
          | none => none
      else none
  match optPart with
  | none => .ok none
  | some (primary, cdsHa, m1, d1) =>
    let spv : Option Bool × Option ℚ :=
      match spRaw with
      | none => (none, none)
      | some r =>
        if r.nonempty then
          match r.cdsSpTotalFinal with
          | some spVal =>
            (some (decide (|primary - spVal| ≤ 1 / 1000)), some |primary - spVal|)
          | none => (none, none)
        else (none, none)
    match cdsHa with
    | some h =>
      .ok (some { gcdsHa := h, gcdsKcal := primary,
                  optSummaryMatch := m1, optSummaryDiff := d1,
                  spTotalMatch := spv.1, spTotalDiff := spv.2 })
    | none =>
      -- summary-fallback path: `cds_hartree` was never assigned, and the
      -- result dictionary reads it → UnboundLocalError
      .error ()

/-- Decidable equality for `Except` results (used to evaluate concrete
runs of the fallible functions below). -/
instance exceptDecEq {ε α : Type} [DecidableEq ε] [DecidableEq α] :
    DecidableEq (Except ε α)
  | .ok a, .ok b =>
    if h : a = b then .isTrue (by rw [h])
    else .isFalse (fun hc => h (by cases hc; rfl))
  | .ok _, .error _ => .isFalse (fun hc => Except.noConfusion hc)
  | .error _, .ok _ => .isFalse (fun hc => Except.noConfusion hc)
  | .error e, .error f =>
    if h : e = f then .isTrue (by rw [h])
    else .isFalse (fun hc => h (by cases hc; rfl))

/-! ## Profile extractor
(`core/extractors/profile_extractor_functional.py`) -/

/-- The fields of a raw calculation-data dictionary that
`profile_extractor_functional.py` reads: identity metadata, energies
(each possibly absent), and the component lists attached by
`create_file_metadata`.  `Calc_Type` is `entry.get("Calc_Type", "")`, so
an absent key is the empty string. -/
structure RawRecord where
  species : List Char
  branch : List Char
  category : List Char
  catalyst : List Char
  calcType : List Char
  eKcal : Option ℚ
  spEKcal : Option ℚ
  gKcal : Option ℚ
  allReactants : List (List Char)
  allProducts : List (List Char)
  allCatalysts : List (List Char)
  reactants : List (List Char)
  products : List (List Char)
  deriving DecidableEq, Repr

/-- `_get_components` result. -/
structure Components where
  allReactants : List (List Char)
  allProducts : List (List Char)
  allCatalysts : List (List Char)
  deriving DecidableEq, Repr

/-- `_get_components` (lines 15-26): component lists of the first entry. -/
def getComponents (raw : List RawRecord) : Components :=
  match raw with
  | [] => ⟨[], [], []⟩
  | r :: _ => ⟨r.allReactants, r.allProducts, r.allCatalysts⟩

/-- One value of the energy-lookup dictionary. -/
structure EnergyVal where
  E : ℚ
  G : Option ℚ
  deriving DecidableEq, Repr

/-- Python `dict` assignment on an association list: overwrite in place,
new keys appended (insertion order preserved). -/
def dictInsert {β : Type} (k : List Char) (v : β) :
    List (List Char × β) → List (List Char × β)
  | [] => [(k, v)]
  | (k0, v0) :: rest =>
    if k0 = k then (k0, v) :: rest else (k0, v0) :: dictInsert k v rest

def dictGet {β : Type} (k : List Char) : List (List Char × β) → Option β
  | [] => none
  | (k0, v0) :: rest => if k0 = k then some v0 else dictGet k rest

/-- Python `a or b` on optional floats: `None` and `0.0` are falsy. -/
def pyOrQ (a b : Option ℚ) : Option ℚ :=
  match a with
  | some x => if x = 0 then b else some x
  | none => b

def unknownLit : List Char := "unknown".data

def underscoreLit : List Char := "_".data

/-- `_build_energy_lookup` (lines 29-57): keyed by species and, when a
calculation type is present (truthy and not `"unknown"`), additionally
by `species_calctype`; the energy is `E (kcal/mol) or SP_E (kcal/mol)`
and is required, `G` may be absent. -/
def buildEnergyLookup (raw : List RawRecord) : List (List Char × EnergyVal) :=
  raw.foldl
    (fun lookup data =>
      if data.species = [] then lookup
      else
        match pyOrQ data.eKcal data.spEKcal with
        | none => lookup
        | some e =>
          let withCt :=
            if data.calcType ≠ [] ∧ data.calcType ≠ unknownLit then
              dictInsert (data.species ++ underscoreLit ++ data.calcType)
                ⟨e, data.gKcal⟩ lookup
            else lookup
          dictInsert data.species ⟨e, data.gKcal⟩ withCt)
    []

/-- `_get_energy` (lines 60-67): try the calc-type-specific key first. -/
def getEnergy (species : List Char) (lookup : List (List Char × EnergyVal))
    (calcType : Option (List Char)) : Option EnergyVal :=
  match calcType with
  | some ct =>
    if ct ≠ [] then
      match dictGet (species ++ underscoreLit ++ ct) lookup with
      | some v => some v
      | none => dictGet species lookup
    else dictGet species lookup
  | none => dictGet species lookup

/-- `_find_entries` (lines 70-81); each filter applies only when its
argument is truthy (non-`None`, non-empty). -/
def findEntries (raw : List RawRecord) (branch category : List Char)
    (catalyst : Option (List Char)) : List RawRecord :=
  raw.filter fun e =>
    (branch.isEmpty || decide (e.branch = branch))
    && (category.isEmpty || decide (e.category = category))
    && (match catalyst with
        | none => true
        | some c => c.isEmpty || decide (e.catalyst = c))

/-- One profile-stage dictionary as built by `_create_stage`. -/
structure Stage where
  stage : List Char
  calcType : Option (List Char)
  species : List Char
  eKcal : ℚ
  gKcal : Option ℚ
  source : List Char
  deriving DecidableEq, Repr

/-- `" + ".join`. -/
def joinPlus (l : List (List Char)) : List Char :=
  match l with
  | [] => []
  | x :: xs => xs.foldl (fun acc y => acc ++ " + ".data ++ y) x

/-- The energy-summing loop of `_create_stage`: accumulates
`(total_e, total_g, has_g_data)` over the zipped species/calc-type
pairs, failing when any species has no energy. -/
def sumEnergiesAux (lookup : List (List Char × EnergyVal))
    (acc : ℚ × ℚ × Bool) :
    List (List Char × Option (List Char)) → Option (ℚ × ℚ × Bool)
  | [] => some acc
  | (sp, ct) :: rest =>
    match getEnergy sp lookup ct with
    | none => none
    | some ev =>
      match ev.G with
      | none => sumEnergiesAux lookup (acc.1 + ev.E, acc.2.1, false) rest
      | some g => sumEnergiesAux lookup (acc.1 + ev.E, acc.2.1 + g, acc.2.2) rest

/-- Python truthiness of an optional calc-type string. -/
def truthyCt : Option (List Char) → Bool
  | some c => !c.isEmpty
  | none => false

/-- `_create_stage` (lines 84-140).  `calc_types or [None]*len(...)`
replaces an absent or empty list by all-`None`; `zip` truncates to the
shorter list as in Python. -/
def createStage (stageName : List Char) (speciesList : List (List Char))
    (lookup : List (List Char × EnergyVal))
    (calcTypes0 : Option (List (Option (List Char)))) : Option Stage :=
  if speciesList = [] then none
  else
    let calcTypes :=
      match calcTypes0 with
      | some cts =>
        if cts = [] then List.replicate speciesList.length none else cts
      | none => List.replicate speciesList.length none
    match sumEnergiesAux lookup (0, 0, true) (speciesList.zip calcTypes) with
    | none => none
    | some (te, tg, hg) =>
      let nonEmptyCts := calcTypes.filterMap fun ct =>
        ct.bind fun c => if c = [] then none else some c
      let primaryCt := nonEmptyCts.head?
      let source :=
        if speciesList.length = 1 ∧ truthyCt (calcTypes.head?.getD none) then
          "Direct (".data ++ ((calcTypes.head?.getD none).getD []) ++ ")".data
        else if speciesList.length = 1 then "Direct".data
        else "Addition".data
      some { stage := stageName, calcType := primaryCt,
             species := joinPlus speciesList, eKcal := te,
             gKcal := if hg then some tg else none, source := source }

/-- Which component list a stage configuration consults. -/
inductive CompKey where
  | reactants
  | products
  deriving DecidableEq, Repr

/-- One row of the `stage_configurations` table of `_generate_stages`
(the `needs_calc_type` key of the Python table is never read by the
function body and is omitted). -/
structure StageConfig where
  branch : List Char
  category : List Char
  stageName : List Char
  needsMissingComponents : Bool
  needsCatalyst : Bool
  catalystPresent : Bool
  componentsKey : Option CompKey
  deriving DecidableEq, Repr

/-- The `stage_configurations` lookup (lines 146-176). -/
def stageConfigOf (stageType : List Char) : Option StageConfig :=
  if stageType = "reactants".data then
    some ⟨"reactants".data, "no_cat".data, "Reactants".data, true, true, false,
      some .reactants⟩
  else if stageType = "products".data then
    some ⟨"products".data, "no_cat".data, "Products".data, true, true, false,
      some .products⟩
  else if stageType = "preTS".data then
    some ⟨"preTS".data, "cat".data, "preTS".data, true, false, false,
      some .reactants⟩
  else if stageType = "postTS".data then
    some ⟨"postTS".data, "cat".data, "postTS".data, true, false, false,
      some .products⟩
  else if stageType = "ts_cat".data then
    some ⟨"ts".data, "cat".data, "TS".data, false, false, true, none⟩
  else if stageType = "ts_nocat".data then
    some ⟨"ts".data, "no_cat".data, "TS".data, false, true, false, none⟩
  else none

def subsetB (a b : List (List Char)) : Bool := a.all fun x => decide (x ∈ b)

/-- `frozenset` equality of species lists. -/
def sameSetB (a b : List (List Char)) : Bool := subsetB a b && subsetB b a

/-- The species list and calc-type list an entry contributes in
`_generate_stages` (lines 198-214). -/
def stageSpeciesOf (cfg : StageConfig) (components : Components)
    (catalyst : List Char) (entry : RawRecord) :
    List (List Char) × List (Option (List Char)) :=
  let base : List (List Char) := [entry.species]
  let baseCts : List (Option (List Char)) :=
    if entry.calcType ≠ [] then [some entry.calcType] else [none]
  let lc : List (List Char) × List (Option (List Char)) :=
    match cfg.componentsKey with
    | some k =>
      if cfg.needsMissingComponents then
        let componentsList :=
          match k with
          | .reactants => components.allReactants
          | .products => components.allProducts
        let present :=
          match k with
          | .reactants => entry.reactants
          | .products => entry.products
        let missing := componentsList.filter fun c => decide (c ∉ present)
        if missing ≠ [] then
          (base ++ missing, baseCts ++ List.replicate missing.length none)
        else (base, baseCts)
      else (base, baseCts)
    | none => (base, baseCts)
  if cfg.needsCatalyst ∧ ¬ cfg.catalystPresent then
    (lc.1 ++ [catalyst], lc.2 ++ [none])
  else lc

/-- The per-entry step of `_generate_stages`: duplicate species sets are
skipped for `no_cat` configurations (the set is recorded even when stage
creation then fails). -/
def generateStagesStep (cfg : StageConfig) (components : Components)
    (catalyst : List Char) (lookup : List (List Char × EnergyVal))
    (useSeen : Bool) (acc : List Stage × List (List (List Char)))
    (entry : RawRecord) : List Stage × List (List (List Char)) :=
  let sc := stageSpeciesOf cfg components catalyst entry
  if useSeen then
    if acc.2.any (fun s => sameSetB s sc.1) then acc
    else
      let seen2 := sc.1 :: acc.2
      match createStage cfg.stageName sc.1 lookup (some sc.2) with
      | some st => (acc.1 ++ [st], seen2)
      | none => (acc.1, seen2)
  else
    match createStage cfg.stageName sc.1 lookup (some sc.2) with
    | some st => (acc.1 ++ [st], acc.2)
    | none => acc

/-- `_generate_stages` (lines 143-229). -/
def generateStages (stageType : List Char) (catalyst : List Char)
    (raw : List RawRecord) (components : Components)
    (lookup : List (List Char × EnergyVal)) : List Stage :=
  match stageConfigOf stageType with
  | none => []
  | some cfg =>
    let entries := findEntries raw cfg.branch cfg.category
      (if cfg.category = "cat".data then some catalyst else none)
    if entries = [] then []
    else
      let useSeen := cfg.category = "no_cat".data
      (entries.foldl (generateStagesStep cfg components catalyst lookup useSeen)
        ([], [])).1

/-- `_generate_catalyst_profile` (lines 232-244). -/
def generateCatalystProfile (catalyst : List Char) (raw : List RawRecord)
    (components : Components) (lookup : List (List Char × EnergyVal)) :
    List Stage :=
  generateStages "reactants".data catalyst raw components lookup
  ++ generateStages "preTS".data catalyst raw components lookup
  ++ generateStages "ts_cat".data catalyst raw components lookup
  ++ generateStages "ts_nocat".data catalyst raw components lookup
  ++ generateStages "postTS".data catalyst raw components lookup
  ++ generateStages "products".data catalyst raw components lookup

/-! ## `_filter_profile` (lines 247-306) -/

inductive EType where
  | E
  | G
  deriving DecidableEq, Repr

/-- `stage.get(f"{energy_type} (kcal/mol)")`: the `E` value is always a
float, the `G` value may be `None`. -/
def energyKeyOf (st : Stage) : EType → Option ℚ
  | .E => some st.eKcal
  | .G => st.gKcal

/-- Group the profile by stage name, preserving both first-occurrence
group order and within-group order (a Python `dict` of lists). -/
def groupInsert (k : List Char) (st : Stage) :
    List (List Char × List Stage) → List (List Char × List Stage)
  | [] => [(k, [st])]
  | (k0, l) :: rest =>
    if k0 = k then (k0, l ++ [st]) :: rest else (k0, l) :: groupInsert k st rest

def groupByStage (profile : List Stage) : List (List Char × List Stage) :=
  profile.foldl (fun groups st => groupInsert st.stage st groups) []

/-- CPython `min(stages, key=...)`: first minimum wins; comparing `None`
with a float (or `None`) raises `TypeError`, modelled as `.error`.  (The
`float('inf')` default of the Python key function is dead code: every
stage dictionary contains the energy key.) -/
def pyMinAux (key : Stage → Option ℚ) (best : Stage) (bestKey : Option ℚ) :
    List Stage → Except Unit Stage
  | [] => .ok best
  | x :: xs =>
    match key x, bestKey with
    | some k, some bk =>
      if k < bk then pyMinAux key x (some k) xs else pyMinAux key best (some bk) xs
    | _, _ => .error ()

def pyMinByKey (key : Stage → Option ℚ) : List Stage → Except Unit Stage
  | [] => .error ()
  | x :: xs => pyMinAux key x (key x) xs

def fullCatLit : List Char := "full_cat".data

def polCatLit : List Char := "pol_cat".data

def frzCatLit : List Char := "frz_cat".data

/-- A stage's `Calc_Type` is "present" when truthy and not in
`[None, "", "unknown"]`. -/
def isCalcTyped (s : Stage) : Bool :=
  match s.calcType with
  | some c => !c.isEmpty && !(c == unknownLit)
  | none => false

/-- The per-group body of `_filter_profile`'s loop (lines 270-304),
producing that group's contribution to `filtered`. -/
def groupFiltered (energyOf : Stage → Option ℚ) (stages : List Stage) :
    Except Unit (List Stage) :=
  let calcTypeStages := stages.filter isCalcTyped
  let noCalcTypeStages := stages.filter fun s => !isCalcTyped s
  let part1 : Except Unit (List Stage) :=
    if calcTypeStages ≠ [] then
      let fullCatStages := calcTypeStages.filter fun s =>
        decide (s.calcType = some fullCatLit)
      if fullCatStages ≠ [] then
        (pyMinByKey energyOf fullCatStages).map fun minFull =>
          let minSpecies := minFull.species
          let pols := calcTypeStages.filter fun s =>
            decide (s.calcType = some polCatLit) && decide (s.species = minSpecies)
          let frzs := calcTypeStages.filter fun s =>
            decide (s.calcType = some frzCatLit) && decide (s.species = minSpecies)
          [minFull] ++ pols.head?.toList ++ frzs.head?.toList
      else
        (pyMinByKey energyOf calcTypeStages).map fun minStage =>
          calcTypeStages.filter fun s => decide (s.species = minStage.species)
    else .ok []
  let part2 : Except Unit (List Stage) :=
    if noCalcTypeStages ≠ [] then
      (pyMinByKey energyOf noCalcTypeStages).map fun m => [m]
    else .ok []
  part1.bind fun p1 => part2.map fun p2 => p1 ++ p2

def filterGroups (energyOf : Stage → Option ℚ) :
    List (List Char × List Stage) → Except Unit (List Stage)
  | [] => .ok []
  | (_, stages) :: rest =>
    (groupFiltered energyOf stages).bind fun part =>
    (filterGroups energyOf rest).map fun restF => part ++ restF

/-- Stable insertion by first index in the original profile
(`sorted(filtered, key=lambda s: profile.index(s))`, value equality). -/
def insertByIdx (profile : List Stage) (s : Stage) : List Stage → List Stage
  | [] => [s]
  | x :: xs =>
    if profile.indexOf x ≤ profile.indexOf s then x :: insertByIdx profile s xs
    else s :: x :: xs

def sortByProfileIndex (profile : List Stage) (l : List Stage) : List Stage :=
  l.foldl (fun acc s => insertByIdx profile s acc) []

/-- `_filter_profile(profile, energy_type)`. -/
def filterProfile (profile : List Stage) (etype : EType) :
    Except Unit (List Stage) :=
  let energyOf := fun st => energyKeyOf st etype
  if !(profile.any fun st => (energyOf st).isSome) then .ok []
  else
    (filterGroups energyOf (groupByStage profile)).map (sortByProfileIndex profile)

/-! ## `extract_profiles` (lines 309-339) -/

/-- One catalyst's entry of the `extract_profiles` result: the raw
profile plus, when `filter_duplicates` is set, the `E`- and `G`-filtered
profiles. -/
structure ProfileSet where
  raw : List Stage
  filteredE : Option (List Stage)
  filteredG : Option (List Stage)
  deriving DecidableEq, Repr

/-- The catalyst loop of `extract_profiles`, in list order, accumulating
the profiles dictionary; a filtering `TypeError` propagates. -/
def buildProfilesList (raw : List RawRecord) (components : Components)
    (lookup : List (List Char × EnergyVal)) (filterDuplicates : Bool) :
    List (List Char) → List (List Char × ProfileSet) →
    Except Unit (List (List Char × ProfileSet))
  | [], acc => .ok acc
  | c :: cs, acc =>
    let rawProfile := generateCatalystProfile c raw components lookup
    if rawProfile = [] then
      buildProfilesList raw components lookup filterDuplicates cs acc
    else if filterDuplicates then
      (filterProfile rawProfile .E).bind fun fE =>
      (filterProfile rawProfile .G).bind fun fG =>
      buildProfilesList raw components lookup filterDuplicates cs
        (dictInsert c ⟨rawProfile, some fE, some fG⟩ acc)
    else
      buildProfilesList raw components lookup filterDuplicates cs
        (dictInsert c ⟨rawProfile, none, none⟩ acc)

/-- `extract_profiles(raw_data_list, filter_duplicates)`. -/
def extractProfiles (rawDataList : List RawRecord)
    (filterDuplicates : Bool) : Except Unit (List (List Char × ProfileSet)) :=
  if rawDataList = [] then .ok []
  else
    let components := getComponents rawDataList
    let lookup := buildEnergyLookup rawDataList
    buildProfilesList rawDataList components lookup filterDuplicates
      components.allCatalysts []

/-! ## Concrete instances used as evaluation inputs -/

/-- A `preTS` stage with the given decomposition variant, species
combination and energy. -/
def stX (ct : List Char) (sp : List Char) (e : ℚ) : Stage :=
  ⟨"preTS".data, some ct, sp, e, some e, "Direct".data⟩

/-- A profile with three decomposition variants of one `preTS` stage:
the minimal `full_cat` sits at species `X`, while lower-energy
`pol_cat`/`frz_cat` entries exist at species `Y`. -/
def C7profile : List Stage :=
  [stX fullCatLit "X".data 5, stX fullCatLit "Y".data 7,
   stX polCatLit "X".data 3, stX polCatLit "Y".data 1,
   stX frzCatLit "Y".data 0]

def allR : List (List Char) := ["A".data, "B".data]

def allP : List (List Char) := ["P".data]

def allC : List (List Char) := ["C".data]

/-- A complete result-record set for the reaction `A + B -> P` with one
catalyst `C`: individual reactant records, a combined `A-B` reactant
record, a transition-state record, a product record and a catalyst
record. -/
def C2data : List RawRecord := [
  ⟨"A".data, "reactants".data, "no_cat".data, [], [], some 1, none, some 1,
    allR, allP, allC, ["A".data], []⟩,
  ⟨"B".data, "reactants".data, "no_cat".data, [], [], some 2, none, some 2,
    allR, allP, allC, ["B".data], []⟩,
  ⟨"A-B".data, "reactants".data, "no_cat".data, [], [], some 4, none, some 4,
    allR, allP, allC, ["A".data, "B".data], []⟩,
  ⟨"tscomplex".data, "ts".data, "no_cat".data, [], [], some 10, none, some 10,
    allR, allP, allC, [], []⟩,
  ⟨"P".data, "products".data, "no_cat".data, [], [], some 3, none, some 3,
    allR, allP, allC, [], ["P".data]⟩,
  ⟨"C".data, "cat".data, "cat".data, "C".data, [], some 5, none, some 5,
    allR, allP, allC, [], []⟩ ]

/-- The profiles dictionary extracted from `C2data` (no filtering). -/
def C2result : List (List Char × ProfileSet) :=
  match extractProfiles C2data false with
  | .ok r => r
  | .error _ => []

/-! ## `builder.py`: path building and input-file enumeration -/

/-- One basis-set entry of a method (`bs["opt"]`, `bs["sp"]`,
`bs["sp_enabled"]`). -/
structure BasisSet where
  opt : List Char
  sp : List Char
  spEnabled : Bool
  deriving DecidableEq, Repr

/-- One entry of `processed_config["methods"]`. -/
structure MethodCfg where
  nameOpt : List Char
  nameSp : List Char
  dispOpt : List Char
  dispSp : List Char
  solvOpt : List Char
  solvSp : List Char
  spEnabled : Bool
  basisSets : List BasisSet
  deriving DecidableEq, Repr

/-- One entry of the `reactants`/`products`/`catalysts` lists
(`name["opt"]` and the `include` flag, default `True`). -/
structure SpeciesCfg where
  nameOpt : List Char
  include' : Bool
  deriving DecidableEq, Repr

/-- The processed builder configuration. -/
structure Config where
  methods : List MethodCfg
  reactants : List SpeciesCfg
  products : List SpeciesCfg
  catalysts : List SpeciesCfg
  deriving DecidableEq, Repr

/-- `"_".join`. -/
def joinUnderscore (l : List (List Char)) : List Char :=
  match l with
  | [] => []
  | x :: xs => xs.foldl (fun acc y => acc ++ "_".data ++ y) x

/-- `"-".join`. -/
def joinDash (l : List (List Char)) : List Char :=
  match l with
  | [] => []
  | x :: xs => xs.foldl (fun acc y => acc ++ "-".data ++ y) x

/-- Python truthiness of a string combined with `.lower() != "false"`. -/
def truthyNotFalse (s : List Char) : Bool :=
  !s.isEmpty && !(pyLower s == "false".data)

/-- `build_method_folder_name` (lines 464-483). -/
def buildMethodFolderName (method basis dispersion solvent : List Char) :
    List Char :=
  joinUnderscore ([method]
    ++ (if truthyNotFalse dispersion then [dispersion] else [])
    ++ [basis]
    ++ (if truthyNotFalse solvent then [solvent] else []))

/-- A file path as its list of segments below `system_dir`. -/
abbrev BPath := List (List Char)

/-- The category/branch dispatch shared by both modes of
`build_file_path` (lines 230-270): in `sp` mode the extra `sp_folder`
is inserted directly before the file name in every branch, which
`spFolder.toList` reproduces; unknown categories/branches and a missing
catalyst name raise, modelled as `.error`. -/
def buildFilePathCore (baseFolder : List Char) (spFolder : Option (List Char))
    (category branch species calcType catalystName suffix : List Char) :
    Except Unit BPath :=
  if category = "no_cat".data then
    if branch = "reactants".data ∨ branch = "products".data then
      .ok ([baseFolder, "no_cat".data, branch, species]
        ++ spFolder.toList ++ [species ++ suffix])
    else if branch = "ts".data then
      .ok ([baseFolder, "no_cat".data, "ts".data]
        ++ spFolder.toList ++ ["tscomplex".data ++ suffix])
    else .error ()
  else if category = "cat".data then
    if catalystName = [] then .error ()
    else if branch = "preTS".data then
      .ok ([baseFolder, catalystName, "preTS".data, species, calcType]
        ++ spFolder.toList
        ++ ["preTS_".data ++ species ++ "_".data ++ calcType ++ suffix])
    else if branch = "postTS".data then
      .ok ([baseFolder, catalystName, "postTS".data, species, calcType]
        ++ spFolder.toList
        ++ ["postTS_".data ++ species ++ "_".data ++ calcType ++ suffix])
    else if branch = "ts".data then
      .ok ([baseFolder, catalystName, "ts".data, calcType]
        ++ spFolder.toList
        ++ ["ts_".data ++ catalystName ++ "-tscomplex_".data ++ calcType
            ++ suffix])
    else if branch = "cat".data then
      .ok ([baseFolder, catalystName, "cat".data]
        ++ spFolder.toList ++ [catalystName ++ suffix])
    else .error ()
  else .error ()

inductive BMode where
  | opt
  | sp
  deriving DecidableEq, Repr

/-- `build_file_path` (lines 200-273): in `opt` mode the top folder
comes from the given values and the suffix is `_opt.in`; in `sp` mode
the top folder comes from `opt_params` (which must be provided), an
`{sp combo}_sp` folder is added, and the suffix is `_sp.in`. -/
def buildFilePath (method basis dispersion solvent : List Char)
    (category branch species calcType catalystName : List Char)
    (mode : BMode)
    (optParams : Option (List Char × List Char × List Char × List Char)) :
    Except Unit BPath :=
  match mode with
  | .opt =>
    buildFilePathCore (buildMethodFolderName method basis dispersion solvent)
      none category branch species calcType catalystName "_opt.in".data
  | .sp =>
    match optParams with
    | none => .error ()
    | some (m, b, d, s) =>
      buildFilePathCore (buildMethodFolderName m b d s)
        (some (buildMethodFolderName method basis dispersion solvent
          ++ "_sp".data))
        category branch species calcType catalystName "_sp.in".data

/-- The key of `opt_groups` (lines 703-706). -/
abbrev OptKey := List Char × List Char × List Char × List Char

def optKeyOf (m : MethodCfg) (bs : BasisSet) : OptKey :=
  (m.nameOpt, m.dispOpt, bs.opt, m.solvOpt)

/-- One value of `opt_groups`. -/
structure OptGroup where
  optMethod : MethodCfg
  optBs : BasisSet
  spConfigs : List (MethodCfg × BasisSet)
  deriving DecidableEq, Repr

/-- One `(method, bs)` step of the `opt_groups` construction (lines
699-712): create the entry if the key is new, then append the pair to
its `sp_configs` when both sp flags are enabled. -/
def groupsUpdate (m : MethodCfg) (bs : BasisSet) :
    List (OptKey × OptGroup) → List (OptKey × OptGroup)
  | [] =>
    [(optKeyOf m bs,
      ⟨m, bs, if m.spEnabled && bs.spEnabled then [(m, bs)] else []⟩)]
  | (k0, g0) :: rest =>
    if k0 = optKeyOf m bs then
      (k0, ⟨g0.optMethod, g0.optBs,
        g0.spConfigs
          ++ if m.spEnabled && bs.spEnabled then [(m, bs)] else []⟩) :: rest
    else (k0, g0) :: groupsUpdate m bs rest

def optGroups (methods : List MethodCfg) : List (OptKey × OptGroup) :=
  methods.foldl
    (fun gs m => m.basisSets.foldl (fun gs bs => groupsUpdate m bs gs) gs) []

/-- An element of `processed_opt_files` (lines 656-660). -/
structure DedupKey where
  m : List Char
  b : List Char
  d : List Char
  s : List Char
  category : List Char
  branch : List Char
  species : List Char
  calcType : List Char
  catalystName : List Char
  deriving DecidableEq, Repr

/-- `process_file` in `yield` mode (lines 639-683): an `sp` call with sp
not enabled produces nothing; an `opt` call whose dedup key was already
processed produces nothing, otherwise it records the key; the produced
item is the built path. -/
def processFileYield (seen : List DedupKey) (m : MethodCfg) (bs : BasisSet)
    (fmode : BMode) (category branch species calcType catalystName : List Char) :
    Option (Except Unit BPath) × List DedupKey :=
  match fmode with
  | .sp =>
    if !(m.spEnabled && bs.spEnabled) then (none, seen)
    else
      (some (buildFilePath m.nameSp bs.sp m.dispSp m.solvSp
        category branch species calcType catalystName .sp
        (some (m.nameOpt, bs.opt, m.dispOpt, m.solvOpt))), seen)
  | .opt =>
    let key : DedupKey := ⟨m.nameOpt, bs.opt, m.dispOpt, m.solvOpt,
      category, branch, species, calcType, catalystName⟩
    if key ∈ seen then (none, seen)
    else
      (some (buildFilePath m.nameOpt bs.opt m.dispOpt m.solvOpt
        category branch species calcType catalystName .opt none),
       seen ++ [key])

/-- One task of the enumeration: the arguments of one
`process_opt_and_sp_for_species` call. -/
structure Task where
  category : List Char
  branch : List Char
  species : List Char
  calcType : List Char
  catalystName : List Char
  deriving DecidableEq, Repr

/-- `process_opt_and_sp_for_species` (lines 715-734): for each opt
group, the OPT file first, then all its SP files, threading the dedup
set and collecting whatever `process_file` yields. -/
def runTask (groups : List (OptKey × OptGroup))
    (acc : List (Except Unit BPath) × List DedupKey) (t : Task) :
    List (Except Unit BPath) × List DedupKey :=
  groups.foldl (fun acc kg =>
    let r1 := processFileYield acc.2 kg.2.optMethod kg.2.optBs .opt
      t.category t.branch t.species t.calcType t.catalystName
    let acc1 := (acc.1 ++ r1.1.toList, r1.2)
    kg.2.spConfigs.foldl (fun acc2 mb =>
      let r2 := processFileYield acc2.2 mb.1 mb.2 .sp
        t.category t.branch t.species t.calcType t.catalystName
      (acc2.1 ++ r2.1.toList, r2.2)) acc1) acc

/-- `itertools.combinations`: all `r`-element subsequences, in the
positional lexicographic order Python produces. -/
def combinations {α : Type} : Nat → List α → List (List α)
  | 0, _ => [[]]
  | _ + 1, [] => []
  | r + 1, x :: xs =>
    (combinations r xs).map (fun combo => x :: combo) ++ combinations (r + 1) xs

/-- `get_combinations` (lines 454-461). -/
def getCombinations (speciesList : List SpeciesCfg) (minLength : Nat) :
    List (List Char) :=
  (List.range' minLength (speciesList.length + 1 - minLength)).flatMap
    (fun r => (combinations r speciesList).map
      (fun combo => joinDash (combo.map SpeciesCfg.nameOpt)))

def reactantsIncl (cfg : Config) : List SpeciesCfg :=
  cfg.reactants.filter (fun r => r.include')

def productsIncl (cfg : Config) : List SpeciesCfg :=
  cfg.products.filter (fun p => p.include')

def calcTypes3 : List (List Char) :=
  ["full_cat".data, "pol_cat".data, "frz_cat".data]

/-- The per-catalyst tasks of `process_input_files` (lines 765-800):
the catalyst itself, preTS over all included-reactant combinations (3
calc types each), postTS over all included-product combinations, and
the catalyst TS (3 calc types). -/
def catalystTasks (cfg : Config) (catName : List Char) : List Task :=
  [⟨"cat".data, "cat".data, catName, [], catName⟩]
  ++ ((getCombinations (reactantsIncl cfg) 1).flatMap fun combo =>
      calcTypes3.map fun ct =>
        ⟨"cat".data, "preTS".data, catName ++ "-".data ++ combo, ct, catName⟩)
  ++ ((getCombinations (productsIncl cfg) 1).flatMap fun combo =>
      calcTypes3.map fun ct =>
        ⟨"cat".data, "postTS".data, catName ++ "-".data ++ combo, ct, catName⟩)
  ++ (calcTypes3.map fun ct =>
      ⟨"cat".data, "ts".data,
        "ts_".data ++ catName ++ "-tscomplex".data, ct, catName⟩)

/-- The full task sequence of `process_input_files` (lines 737-800):
all reactants (including excluded ones), all products, the `tscomplex`
TS, reactant combinations of length ≥ 2 over the included reactants
(only when more than one), then the per-catalyst tasks. -/
def tasksOf (cfg : Config) : List Task :=
  (cfg.reactants.map fun r =>
    ⟨"no_cat".data, "reactants".data, r.nameOpt, [], []⟩)
  ++ (cfg.products.map fun p =>
    ⟨"no_cat".data, "products".data, p.nameOpt, [], []⟩)
  ++ [⟨"no_cat".data, "ts".data, "tscomplex".data, [], []⟩]
  ++ (if 1 < (reactantsIncl cfg).length then
      (getCombinations (reactantsIncl cfg) 2).map fun combo =>
        ⟨"no_cat".data, "reactants".data, combo, [], []⟩
    else [])
  ++ (cfg.catalysts.flatMap fun c => catalystTasks cfg c.nameOpt)

/-- `process_input_files` in `yield` mode, as the list of built paths
(`iter_input_paths` yields exactly these). -/
def processInputFiles (cfg : Config) : List (Except Unit BPath) :=
  ((tasksOf cfg).foldl (runTask (optGroups cfg.methods)) ([], [])).1

/-- A configuration with two methods whose distinct opt parameters
alias to the same folder name `m_d_B`: method `m_d` without dispersion
and method `m` with dispersion `d`. -/
def C1cfg : Config :=
  ⟨[⟨"m_d".data, [], "false".data, [], "false".data, [], false,
      [⟨"B".data, [], false⟩]⟩,
    ⟨"m".data, [], "d".data, [], "false".data, [], false,
      [⟨"B".data, [], false⟩]⟩],
   [⟨"R".data, true⟩], [], []⟩

/-- A well-behaved configuration: one method with SP enabled, two
reactants, one product, one catalyst. -/
def C1cfgSane : Config :=
  ⟨[⟨"wb97xd".data, "wb97xv".data, "false".data, "false".data,
      "false".data, "false".data, true,
      [⟨"dz".data, "tz".data, true⟩]⟩],
   [⟨"A".data, true⟩, ⟨"B".data, true⟩], [⟨"P".data, true⟩],
   [⟨"C".data, true⟩]⟩

/-- The opt method-combo folder of a group. -/
def groupFolder (kg : OptKey × OptGroup) : List Char :=
  buildMethodFolderName kg.2.optMethod.nameOpt kg.2.optBs.opt
    kg.2.optMethod.dispOpt kg.2.optMethod.solvOpt

/-- The sp subfolder name of an sp config. -/
def spFolderName (mb : MethodCfg × BasisSet) : List Char :=
  buildMethodFolderName mb.1.nameSp mb.2.sp mb.1.dispSp mb.1.solvSp
    ++ "_sp".data

/-- The sanity conditions under which the enumeration's paths are
pairwise distinct: nonempty catalyst names not named `no_cat`, pairwise
distinct task tuples, pairwise distinct opt folder names across groups,
and pairwise distinct sp folder names within each group. -/
def ConfigSane (cfg : Config) : Prop :=
  (∀ c ∈ cfg.catalysts, c.nameOpt ≠ [] ∧ c.nameOpt ≠ "no_cat".data)
  ∧ (tasksOf cfg).Nodup
  ∧ ((optGroups cfg.methods).map groupFolder).Nodup
  ∧ ∀ kg ∈ optGroups cfg.methods, (kg.2.spConfigs.map spFolderName).Nodup

instance (cfg : Config) : Decidable (ConfigSane cfg) := by
  unfold ConfigSane
  infer_instance

/-- Well-formedness of the `opt_groups` dictionary: distinct keys, each
entry's stored method/basis matches its key, and every sp config
matches its group's key and is sp-enabled. -/
def GroupsWF (gs : List (OptKey × OptGroup)) : Prop :=
  (gs.map Prod.fst).Nodup
  ∧ ∀ kg ∈ gs, optKeyOf kg.2.optMethod kg.2.optBs = kg.1
      ∧ ∀ mb ∈ kg.2.spConfigs, optKeyOf mb.1 mb.2 = kg.1
          ∧ (mb.1.spEnabled && mb.2.spEnabled) = true

/-- The OPT path one group emits for one task. -/
def optEmit (kg : OptKey × OptGroup) (t : Task) : Except Unit BPath :=
  buildFilePath kg.2.optMethod.nameOpt kg.2.optBs.opt kg.2.optMethod.dispOpt
    kg.2.optMethod.solvOpt t.category t.branch t.species t.calcType
    t.catalystName .opt none

/-- The SP path one sp config emits for one task. -/
def spEmit (mb : MethodCfg × BasisSet) (t : Task) : Except Unit BPath :=
  buildFilePath mb.1.nameSp mb.2.sp mb.1.dispSp mb.1.solvSp
    t.category t.branch t.species t.calcType t.catalystName .sp
    (some (mb.1.nameOpt, mb.2.opt, mb.1.dispOpt, mb.1.solvOpt))

/-- All paths one task emits, in emission order. -/
def taskEmits (groups : List (OptKey × OptGroup)) (t : Task) :
    List (Except Unit BPath) :=
  groups.flatMap (fun kg =>
    optEmit kg t :: kg.2.spConfigs.map (fun mb => spEmit mb t))

/-- The dedup key one group records for one task. -/
def keyOf (kg : OptKey × OptGroup) (t : Task) : DedupKey :=
  ⟨kg.2.optMethod.nameOpt, kg.2.optBs.opt, kg.2.optMethod.dispOpt,
   kg.2.optMethod.solvOpt, t.category, t.branch, t.species, t.calcType,
   t.catalystName⟩

/-- The task shapes `process_input_files` actually enumerates. -/
def TaskWF (t : Task) : Prop :=
  (t.category = "no_cat".data ∧ t.catalystName = [] ∧ t.calcType = []
    ∧ ((t.branch = "reactants".data ∨ t.branch = "products".data)
       ∨ (t.branch = "ts".data ∧ t.species = "tscomplex".data)))
  ∨ (t.category = "cat".data ∧ t.catalystName ≠ []
    ∧ t.catalystName ≠ "no_cat".data
    ∧ (t.branch = "preTS".data ∨ t.branch = "postTS".data
       ∨ (t.branch = "ts".data
          ∧ t.species = "ts_".data ++ t.catalystName ++ "-tscomplex".data)
       ∨ (t.branch = "cat".data ∧ t.species = t.catalystName
          ∧ t.calcType = [])))

/-- Reading an OPT path back: the base folder and the task it encodes
(on the path shapes the enumeration produces). -/
def decodeOpt : BPath → Option (List Char × Task)
  | [b, c, br, fn] =>
    if c = "no_cat".data then
      some (b, ⟨"no_cat".data, "ts".data, "tscomplex".data, [], []⟩)
    else if br = "cat".data then
      some (b, ⟨"cat".data, "cat".data, c, [], c⟩)
    else none
  | [b, c, br, species, fn] =>
    if c = "no_cat".data then
      some (b, ⟨"no_cat".data, br, species, [], []⟩)
    else if br = "ts".data then
      some (b, ⟨"cat".data, "ts".data,
        "ts_".data ++ c ++ "-tscomplex".data, species, c⟩)
    else none
  | [b, c, br, species, ct, fn] =>
    some (b, ⟨"cat".data, br, species, ct, c⟩)
  | _ => none

/-- Reading an SP path back: the base folder, sp subfolder, and the
task it encodes (on the shapes the enumeration produces). -/
def decodeSp : BPath → Option (List Char × List Char × Task)
  | [b, c, br, v, fn] =>
    if c = "no_cat".data then
      some (b, v, ⟨"no_cat".data, "ts".data, "tscomplex".data, [], []⟩)
    else if br = "cat".data then
      some (b, v, ⟨"cat".data, "cat".data, c, [], c⟩)
    else none
  | [b, c, br, species, v, fn] =>
    if c = "no_cat".data then
      some (b, v, ⟨"no_cat".data, br, species, [], []⟩)
    else if br = "ts".data then
      some (b, v, ⟨"cat".data, "ts".data,
        "ts_".data ++ c ++ "-tscomplex".data, species, c⟩)
    else none
  | [b, c, br, species, ct, v, fn] =>
    some (b, v, ⟨"cat".data, br, species, ct, c⟩)
  | _ => none

/-! # Theorems -/

/-! ## Text-primitive lemmas -/

theorem listStarts_append (pat s t : List Char) (h : listStarts pat s = true) :
    listStarts pat (s ++ t) = true := by
  induction pat generalizing s with
  | nil => simp [listStarts]
  | cons a as ih =>
    cases s with
    | nil => simp [listStarts] at h
    | cons b bs =>
      simp only [listStarts, Bool.and_eq_true] at h ⊢
      exact ⟨h.1, ih bs h.2⟩

theorem hasSub_append_left (pat s a : List Char) (h : hasSub pat s = true) :
    hasSub pat (a ++ s) = true := by
  induction a with
  | nil => simpa using h
  | cons c cs ih =>
    simp only [List.cons_append, hasSub, Bool.or_eq_true]
    exact Or.inr ih

theorem hasSub_append_right (pat s b : List Char) (h : hasSub pat s = true) :
    hasSub pat (s ++ b) = true := by
  induction s with
  | nil =>
    simp only [hasSub] at h
    simp only [List.nil_append]
    cases b with
    | nil => simpa [hasSub] using h
    | cons c cs =>
      simp only [hasSub, Bool.or_eq_true]
      exact Or.inl (listStarts_append _ _ _ h)
  | cons c cs ih =>
    simp only [hasSub, Bool.or_eq_true, List.cons_append] at h ⊢
    cases h with
    | inl h => exact Or.inl (listStarts_append _ _ _ h)
    | inr h => exact Or.inr (ih h)

theorem hasSub_pad (pat s a b : List Char) (h : hasSub pat s = true) :
    hasSub pat (a ++ s ++ b) = true := by
  have := hasSub_append_right pat s b h
  have := hasSub_append_left pat (s ++ b) a this
  simpa [List.append_assoc] using this

theorem dropWs_all_ws (t : List Char) (h : ∀ c ∈ t, isWs c = true) :
    dropWs t = [] := by
  induction t with
  | nil => simp [dropWs]
  | cons c cs ih =>
    have hc := h c (by simp)
    simp only [dropWs, hc, if_true]
    exact ih (fun d hd => h d (by simp [hd]))

/-- If a list is entirely whitespace, `rstrip` empties it. -/
theorem pyRstrip_all_ws (s : List Char) (h : hasNonWs s = false) :
    pyRstrip s = [] := by
  have hrev : ∀ c ∈ s.reverse, isWs c = true := by
    intro c hc
    have hc' : c ∈ s := by simpa using hc
    simp only [hasNonWs, List.any_eq_false] at h
    have := h c hc'
    simpa using this
  simp [pyRstrip, dropWs_all_ws s.reverse hrev]

/-- A non-empty `rstrip` result ends in a non-whitespace character,
hence contains one. -/
theorem pyRstrip_hasNonWs (s : List Char) (h : pyRstrip s ≠ []) :
    hasNonWs (pyRstrip s) = true := by
  by_contra hfalse
  have hws : hasNonWs (pyRstrip s) = false := by
    cases hh : hasNonWs (pyRstrip s) with
    | false => rfl
    | true => exact absurd hh hfalse
  -- the head of `dropWs s.reverse` is non-whitespace
  have : dropWs s.reverse = [] := by
    cases hd : dropWs s.reverse with
    | nil => rfl
    | cons c cs =>
      have hcws : isWs c = false := by
        -- dropWs only stops at a non-ws head or the end
        have : ∀ t, dropWs t = c :: cs → isWs c = false := by
          intro t
          induction t with
          | nil => intro hcontr; simp [dropWs] at hcontr
          | cons a as ih =>
            intro heq
            by_cases ha : isWs a = true
            · simp only [dropWs, ha, if_true] at heq
              exact ih heq
            · simp only [dropWs, ha, if_false] at heq
              cases heq
              simpa using ha
        exact this s.reverse hd
      have hmem : c ∈ pyRstrip s := by
        simp [pyRstrip, hd]
      simp only [hasNonWs, List.any_eq_false] at hws
      have := hws c hmem
      rw [hcws] at this
      simp at this
  exact h (by simp [pyRstrip, this])

/-! ## Status classifier lemmas -/

/-- The classifier on empty content, reduced past the `nofile` branch. -/
theorem parse_nil_eq (e : List Char) (s : Bool) :
    parseQchemStatusState [] e s =
      if hasSub cancelledMarker e then .terminated
      else if hasSub errorRunMarker e || hasSub abortedMarker e then .crash
      else if s then .running
      else .nofile := by
  simp only [parseQchemStatusState, List.isEmpty_nil, if_true]

/-- The classifier never returns `empty` unless the content is non-empty
and whitespace-only. -/
theorem parse_ne_empty (content e : List Char) (s : Bool)
    (h : content = [] ∨ hasNonWs content = true) :
    parseQchemStatusState content e s ≠ QStat.empty := by
  intro heq
  unfold parseQchemStatusState at heq
  by_cases h1 : hasSub cancelledMarker e = true
  · rw [if_pos h1] at heq; exact QStat.noConfusion heq
  rw [if_neg h1] at heq
  by_cases h2 : (hasSub errorRunMarker e || hasSub abortedMarker e) = true
  · rw [if_pos h2] at heq; exact QStat.noConfusion heq
  rw [if_neg h2] at heq
  by_cases h3 : s = true
  · rw [if_pos h3] at heq; exact QStat.noConfusion heq
  rw [if_neg h3] at heq
  by_cases h4 : content.isEmpty = true
  · rw [if_pos h4] at heq; exact QStat.noConfusion heq
  rw [if_neg h4] at heq
  by_cases h5 : (hasSub runningOnMarker content && !hasSub thankYouMarker content) = true
  · rw [if_pos h5] at heq; exact QStat.noConfusion heq
  rw [if_neg h5] at heq
  by_cases h6 : hasSub thankYouMarker content = true
  · rw [if_pos h6] at heq; exact QStat.noConfusion heq
  rw [if_neg h6] at heq
  by_cases h7 : hasSub fatalErrorMarker content = true
  · rw [if_pos h7] at heq; exact QStat.noConfusion heq
  rw [if_neg h7] at heq
  by_cases h8 : hasSub sgeomMarker content = true
  · rw [if_pos h8] at heq; exact QStat.noConfusion heq
  rw [if_neg h8] at heq
  by_cases h9 : hasSub scfFailMarker content = true
  · rw [if_pos h9] at heq; exact QStat.noConfusion heq
  rw [if_neg h9] at heq
  by_cases h10 : hasSub memoryMarker content = true
  · rw [if_pos h10] at heq; exact QStat.noConfusion heq
  rw [if_neg h10] at heq
  by_cases h11 : (hasSub killedMarker (pyLower content)
      || hasSub terminatingMarker (pyLower content)) = true
  · rw [if_pos h11] at heq; exact QStat.noConfusion heq
  rw [if_neg h11] at heq
  by_cases h12 : hasNonWs content = true
  · rw [if_pos h12] at heq; exact QStat.noConfusion heq
  rcases h with h | h
  · rw [h] at h4; simp at h4
  · exact h12 h

/-- `get_status_for_file` returns the base status or `VALIDATION`. -/
theorem getStatusForFileState_cases (content e : List Char) (s : Bool)
    (md : Option FileMeta) :
    getStatusForFileState content e s md = parseQchemStatusState content e s
    ∨ getStatusForFileState content e s md = QStat.validation := by
  cases md with
  | none => exact Or.inl rfl
  | some m =>
    simp only [getStatusForFileState]
    split
    · split
      · exact Or.inl rfl
      · split
        · exact Or.inr rfl
        · exact Or.inl rfl
    · exact Or.inl rfl

/-- A `SUCCESSFUL` base status forces non-empty content. -/
theorem parse_successful_ne_nil (content e : List Char) (s : Bool)
    (h : parseQchemStatusState content e s = QStat.successful) :
    content ≠ [] := by
  intro h0
  subst h0
  rw [parse_nil_eq] at h
  repeat' split at h
  all_goals exact QStat.noConfusion h

/-- `searchAlt2` only ever returns one of its two alternatives. -/
theorem searchAlt2_mem (a b : List Char) (l : List Char) (s : List Char)
    (h : searchAlt2 a b l = some s) : s = a ∨ s = b := by
  induction l with
  | nil =>
    unfold searchAlt2 at h
    split_ifs at h <;> simp_all
  | cons c rest ih =>
    unfold searchAlt2 at h
    split_ifs at h
    · exact Or.inl (by simp_all)
    · exact Or.inr (by simp_all)
    · exact ih h

/-- C4: for output text containing the completion marker
(`'Thank you very much'`), with no error or cancellation markers in the
output or error stream and no submission marker, the status classifier
returns `SUCCESSFUL`, regardless of any leading or trailing whitespace
around the output text. -/
theorem C4_successful_robust_to_whitespace
    (content errContent ws1 ws2 : List Char)
    (hthank : hasSub thankYouMarker content = true)
    (hcancel : hasSub cancelledMarker errContent = false)
    (herr : hasSub errorRunMarker errContent = false)
    (habort : hasSub abortedMarker errContent = false)
    (hfatal : hasSub fatalErrorMarker content = false)
    (hsgeom : hasSub sgeomMarker content = false)
    (hscf : hasSub scfFailMarker content = false)
    (hmem : hasSub memoryMarker content = false)
    (hws1 : ∀ c ∈ ws1, isWs c = true)
    (hws2 : ∀ c ∈ ws2, isWs c = true) :
    parseQchemStatusState (ws1 ++ content ++ ws2) errContent false
      = QStat.successful := by
  have hthank2 : hasSub thankYouMarker (ws1 ++ (content ++ ws2)) = true := by
    have := hasSub_pad thankYouMarker content ws1 ws2 hthank
    simpa [List.append_assoc] using this
  have hcne : content ≠ [] := by
    intro h0
    rw [h0] at hthank
    exact absurd hthank (by decide)
  have hne : ¬ (ws1 ++ content ++ ws2).isEmpty = true := by
    simp [List.isEmpty_iff, hcne]
  unfold parseQchemStatusState
  rw [hcancel, herr, habort]
  rw [if_neg (by simp), if_neg (by simp), if_neg (by simp)]
  rw [if_neg hne]
  rw [show ws1 ++ content ++ ws2 = ws1 ++ (content ++ ws2) from List.append_assoc ..]
  rw [hthank2]
  rw [if_neg (by simp), if_pos rfl]

/-- Witness for C4 at a concrete padded output. -/
theorem C4_witness :
    parseQchemStatusState
      ("  ".data ++ "Running on node1\nThank you very much".data ++ " \n".data)
      "".data false = QStat.successful :=
  C4_successful_robust_to_whitespace
    "Running on node1\nThank you very much".data "".data "  ".data " \n".data
    (by decide) (by decide) (by decide) (by decide) (by decide) (by decide)
    (by decide) (by decide) (by decide) (by decide)

/-- C9 (counterexample): an output stream that exists with blank
(whitespace-only) content is classified `nofile`, not `empty` — the
claim predicts `empty` here. -/
theorem C9_counterexample :
    getStatusViaFiles true "  \n".data false [] false none = QStat.nofile
    ∧ QStat.nofile ≠ QStat.empty := by
  constructor
  · decide
  · decide

/-- C9 (amended): because `read_text` right-strips what it reads, the
classifier as driven by `get_status_for_file` (i) never returns `empty`
at all, and (ii) returns `nofile` whenever the output stream is missing
or its content is blank (empty or whitespace-only) and no error-stream
or submission condition matches; `parse_qchem_status` reserves `empty`
for non-empty whitespace-only content, which the file-reading layer
never produces. -/
theorem C9_blank_output_amended :
    (∀ oe ro ee re sub md, getStatusViaFiles oe ro ee re sub md ≠ QStat.empty)
    ∧ (∀ oe ro ee re md,
        hasNonWs ro = false →
        hasSub cancelledMarker (if ee then pyRstrip re else []) = false →
        hasSub errorRunMarker (if ee then pyRstrip re else []) = false →
        hasSub abortedMarker (if ee then pyRstrip re else []) = false →
        getStatusViaFiles oe ro ee re false md = QStat.nofile) := by
  constructor
  · intro oe ro ee re sub md
    unfold getStatusViaFiles
    rcases getStatusForFileState_cases (if oe then pyRstrip ro else [])
        (if ee then pyRstrip re else []) sub md with hcase | hcase <;> rw [hcase]
    · apply parse_ne_empty
      cases oe with
      | false => exact Or.inl (by simp)
      | true =>
        simp only [if_true]
        by_cases hp : pyRstrip ro = []
        · exact Or.inl hp
        · exact Or.inr (pyRstrip_hasNonWs ro hp)
    · decide
  · intro oe ro ee re md hblank hcancel herr habort
    unfold getStatusViaFiles
    have hc : (if oe then pyRstrip ro else []) = [] := by
      cases oe with
      | false => simp
      | true => simp [pyRstrip_all_ws ro hblank]
    rw [hc]
    have hbase : parseQchemStatusState [] (if ee then pyRstrip re else []) false
        = QStat.nofile := by
      rw [parse_nil_eq, hcancel, herr, habort]
      simp
    cases md with
    | none => exact hbase
    | some m =>
      simp only [getStatusForFileState]
      rw [if_neg (fun hcontr => hcontr.2.2 rfl)]
      exact hbase

/-- Witness for C9's amended theorem at a concrete blank file. -/
theorem C9_witness :
    hasNonWs " \t".data = false
    ∧ getStatusViaFiles true " \t".data true "".data false none = QStat.nofile := by
  refine ⟨by decide, ?_⟩
  exact C9_blank_output_amended.2 true " \t".data true "".data none
    (by decide) (by decide) (by decide) (by decide)

/-- C3: for a calculation whose base status is `SUCCESSFUL`, whose
metadata mode is `opt`, and whose output contains an
optimization-convergence marker: a `ts` branch with imaginary-frequency
count ≠ 1 is downgraded to `VALIDATION`, a non-`ts` branch with count
> 0 is downgraded to `VALIDATION`, and otherwise the `SUCCESSFUL`
status is kept. -/
theorem C3_successful_opt_validation
    (content errContent branch : List Char) (sub : Bool)
    (hbase : parseQchemStatusState content errContent sub = QStat.successful)
    (hconv : parseOptimizationStatus content ≠ none) :
    ((pyLower branch = "ts".data
        ∧ (parseImaginaryFrequencies content).getD 0 ≠ 1) →
      getStatusForFileState content errContent sub (some ⟨"opt".data, branch⟩)
        = QStat.validation)
    ∧ ((pyLower branch = "ts".data
        ∧ (parseImaginaryFrequencies content).getD 0 = 1) →
      getStatusForFileState content errContent sub (some ⟨"opt".data, branch⟩)
        = QStat.successful)
    ∧ ((pyLower branch ≠ "ts".data
        ∧ (parseImaginaryFrequencies content).getD 0 > 0) →
      getStatusForFileState content errContent sub (some ⟨"opt".data, branch⟩)
        = QStat.validation)
    ∧ ((pyLower branch ≠ "ts".data
        ∧ (parseImaginaryFrequencies content).getD 0 = 0) →
      getStatusForFileState content errContent sub (some ⟨"opt".data, branch⟩)
        = QStat.successful) := by
  have hcne : content ≠ [] := parse_successful_ne_nil content errContent sub hbase
  obtain ⟨os, hos⟩ : ∃ os, parseOptimizationStatus content = some os := by
    cases hoo : parseOptimizationStatus content with
    | none => exact absurd hoo hconv
    | some os => exact ⟨os, rfl⟩
  have hct : convergenceOf (parseOptimizationStatus content) = ConvType.opt
      ∨ convergenceOf (parseOptimizationStatus content) = ConvType.ts := by
    rw [hos]
    rcases searchAlt2_mem _ _ _ _ hos with h | h <;> subst h
    · left; decide
    · right; decide
  have hmain : getStatusForFileState content errContent sub (some ⟨"opt".data, branch⟩)
      = if (pyLower branch = "ts".data
              ∧ ((convergenceOf (parseOptimizationStatus content) = ConvType.opt
                    ∧ (parseImaginaryFrequencies content).getD 0 ≠ 1)
                 ∨ (convergenceOf (parseOptimizationStatus content) = ConvType.ts
                    ∧ (parseImaginaryFrequencies content).getD 0 ≠ 1)))
           ∨ (¬ pyLower branch = "ts".data ∧ (parseImaginaryFrequencies content).getD 0 > 0)
        then QStat.validation
        else QStat.successful := by
    simp only [getStatusForFileState]
    rw [if_pos (by exact ⟨hbase, by simp, hcne⟩)]
    rw [if_neg (fun hcontr => by rw [hos] at hcontr; exact Option.noConfusion hcontr.1)]
    rw [hbase]
  refine ⟨?_, ?_, ?_, ?_⟩
  · intro ⟨hts, hcnt⟩
    rw [hmain, if_pos]
    left
    refine ⟨hts, ?_⟩
    rcases hct with h | h
    · exact Or.inl ⟨h, hcnt⟩
    · exact Or.inr ⟨h, hcnt⟩
  · intro ⟨hts, hcnt⟩
    rw [hmain, if_neg]
    rintro (⟨-, (⟨-, hne⟩ | ⟨-, hne⟩)⟩ | ⟨hnts, -⟩)
    · exact hne hcnt
    · exact hne hcnt
    · exact hnts hts
  · intro ⟨hnts, hcnt⟩
    rw [hmain, if_pos]
    exact Or.inr ⟨hnts, hcnt⟩
  · intro ⟨hnts, hcnt⟩
    rw [hmain, if_neg]
    rintro (⟨hts, -⟩ | ⟨-, hpos⟩)
    · exact hnts hts
    · omega

/-- Witness for C3 at a concrete converged-TS output with zero imaginary
frequencies on a `ts` branch. -/
theorem C3_witness :
    getStatusForFileState
      ("OPTIMIZATION CONVERGED\nThis Molecule has 0 Imaginary Frequencies\nThank you very much".data)
      [] false (some ⟨"opt".data, "ts".data⟩) = QStat.validation :=
  (C3_successful_opt_validation
    ("OPTIMIZATION CONVERGED\nThis Molecule has 0 Imaginary Frequencies\nThank you very much".data)
    [] "ts".data false (by decide) (by decide)).1 (by decide)

/-! ## Result-parser lemmas (C5, C6) -/

/-- The mandatory-energy step of `parse_thermodynamic_data`, symbolically:
a primary match fixes value, unit and fallback flag. -/
theorem parse_primary_eKcal (content : List Char) (v : ℚ) (u : Option (List Char))
    (h : searchFinalEnergy content = some (v, u)) :
    (parseThermodynamicData content).map (fun d => (d.eKcal, d.eOrig, d.eUnit))
      = some (convertEnergyUnit v (u.getD haLit) kcalPerMolLit, v, u.getD haLit) := by
  unfold parseThermodynamicData getValueWithFallbackE
  rw [h]
  rfl

/-- Hartree to kcal/mol conversion takes the `HARTREE_TO_KCALMOL` branch. -/
theorem convert_Ha_kcal (v : ℚ) :
    convertEnergyUnit v haLit kcalPerMolLit = v * Constants.HARTREE_TO_KCALMOL := by
  simp only [convertEnergyUnit, convertUnit]
  rw [if_neg (by decide), if_pos (by decide)]

/-- C5: `parse_thermodynamic_data` returns no record exactly when neither
the primary energy marker (`'Final energy is'`) nor the fallback marker
(`'Total energy ='`) matches the text; and whenever only the fallback
marker matches, the returned record's `Fallback Used` flag is set
(`"Yes"`). -/
theorem C5_energy_none_iff_fallback_flag :
    (∀ content, parseThermodynamicData content = none
        ↔ (searchFinalEnergy content = none ∧ searchTotalEnergy content = none))
    ∧ (∀ content, searchFinalEnergy content = none →
        searchTotalEnergy content ≠ none →
        ∃ d, parseThermodynamicData content = some d ∧ d.fallbackUsed = true) := by
  constructor
  · intro content
    constructor
    · intro h
      unfold parseThermodynamicData getValueWithFallbackE at h
      cases h1 : searchFinalEnergy content with
      | some p =>
        rw [h1] at h
        exact absurd h (by simp)
      | none =>
        rw [h1] at h
        cases h2 : searchTotalEnergy content with
        | some p =>
          rw [h2] at h
          exact absurd h (by simp)
        | none => exact ⟨rfl, rfl⟩
    · rintro ⟨h1, h2⟩
      unfold parseThermodynamicData getValueWithFallbackE
      rw [h1, h2]
  · intro content h1 h2
    obtain ⟨p, hp⟩ : ∃ p, searchTotalEnergy content = some p := by
      cases hc : searchTotalEnergy content with
      | none => exact absurd hc h2
      | some p => exact ⟨p, rfl⟩
    obtain ⟨v, u⟩ := p
    unfold parseThermodynamicData getValueWithFallbackE
    rw [h1, hp]
    exact ⟨_, rfl, by simp⟩

/-- Witness for C5: a text matched only by the fallback marker. -/
theorem C5_witness :
    searchFinalEnergy "Total energy = -50.0".data = none
    ∧ ∃ d, parseThermodynamicData "Total energy = -50.0".data = some d
        ∧ d.fallbackUsed = true := by
  refine ⟨by decide, ?_⟩
  exact C5_energy_none_iff_fallback_flag.2 "Total energy = -50.0".data
    (by decide) (by decide)

/-- The primary energy match on the C6 text. -/
theorem search_c6_text :
    searchFinalEnergy "Final energy is -100.123456".data
      = some (pyFloatOf true 100 "123456".data, none) := rfl

/-- The parsed decimal of the C6 text as a rational literal. -/
theorem pyFloatOf_c6 :
    pyFloatOf true 100 "123456".data = -(100123456 : ℚ) / 1000000 := by
  have h1 : digitsToNat "123456".data = 123456 := rfl
  have h2 : ("123456".data).length = 6 := rfl
  rw [pyFloatOf, h1, h2]
  norm_num

/-- C6 (counterexample): extraction on `'Final energy is -100.123456'`
multiplies by the factor the code derives (`HARTREE_TO_KCALMOL`,
CODATA-2022), which differs from the spec's canonical constant
`627.5096080305927` by more than `1e-4`, so the produced
`E (kcal/mol)` misses the claim's predicted value
`−100.123456 × 627.5096080305927` by more than `0.01` kcal/mol — the
claimed round-trip of the canonical constant fails. -/
theorem C6_counterexample :
    (parseThermodynamicData "Final energy is -100.123456".data).map
        (fun d => (d.eKcal, d.eOrig, d.eUnit))
      = some (-(100123456 : ℚ) / 1000000 * Constants.HARTREE_TO_KCALMOL,
          -(100123456 : ℚ) / 1000000, haLit)
    ∧ (6275096080305927 : ℚ) / 10 ^ 13 - Constants.HARTREE_TO_KCALMOL > 1 / 10 ^ 4
    ∧ (-(100123456 : ℚ) / 1000000) * Constants.HARTREE_TO_KCALMOL
        - (-(100123456 : ℚ) / 1000000) * ((6275096080305927 : ℚ) / 10 ^ 13)
        > 1 / 100 := by
  refine ⟨?_, ?_, ?_⟩
  · have h := parse_primary_eKcal "Final energy is -100.123456".data
      (pyFloatOf true 100 "123456".data) none search_c6_text
    rw [h, pyFloatOf_c6]
    simp only [Option.getD_none]
    rw [convert_Ha_kcal]
  · simp only [Constants.HARTREE_TO_KCALMOL, Constants.HARTREE_TO_KJMOL,
      Constants.HARTREE_TO_KJ, Constants.HARTREE_TO_J, Constants.TO_KILO,
      Constants.AVOGADRO, Constants.KJMOL_TO_KCALMOL]
    norm_num
  · simp only [Constants.HARTREE_TO_KCALMOL, Constants.HARTREE_TO_KJMOL,
      Constants.HARTREE_TO_KJ, Constants.HARTREE_TO_J, Constants.TO_KILO,
      Constants.AVOGADRO, Constants.KJMOL_TO_KCALMOL]
    norm_num

/-- C6 (amended): extraction on `'Final energy is -100.123456'` yields
`E (kcal/mol) = −100.123456 × Constants.HARTREE_TO_KCALMOL`, where the
factor actually applied is the exact CODATA-2022 derivation
`HARTREE_TO_J × TO_KILO × AVOGADRO × KJMOL_TO_KCALMOL`
`= 43597447222060 × 602214076 × 125 / (523 × 10¹⁹) ≈ 627.50947406`,
not the spec's canonical `627.5096080305927`. -/
theorem C6_extraction_factor_amended :
    (parseThermodynamicData "Final energy is -100.123456".data).map
        (fun d => (d.eKcal, d.eOrig, d.eUnit))
      = some (-(100123456 : ℚ) / 1000000 * Constants.HARTREE_TO_KCALMOL,
          -(100123456 : ℚ) / 1000000, haLit)
    ∧ Constants.HARTREE_TO_KCALMOL
        = (43597447222060 : ℚ) * 602214076 * 125 / (523 * 10 ^ 19) := by
  constructor
  · have h := parse_primary_eKcal "Final energy is -100.123456".data
      (pyFloatOf true 100 "123456".data) none search_c6_text
    rw [h, pyFloatOf_c6]
    simp only [Option.getD_none]
    rw [convert_Ha_kcal]
  · simp only [Constants.HARTREE_TO_KCALMOL, Constants.HARTREE_TO_KJMOL,
      Constants.HARTREE_TO_KJ, Constants.HARTREE_TO_J, Constants.TO_KILO,
      Constants.AVOGADRO, Constants.KJMOL_TO_KCALMOL]
    norm_num

/-! ## SMD CDS extractor lemmas (C8, C10) -/

/-- C8: whenever the CDS term is derived from the G-S and G-ENP
components, extraction never fails, whatever the OPT-summary and
SP-total values are: the record carries the component-derived primary
value (in both units), and any summary comparison is merely recorded
(match flag and difference), never fatal. -/
theorem C8_cds_mismatch_nonfatal
    (r : SmdRawValues) (spRaw : Option SmdRawValues) (gs genp : ℚ)
    (hgs : r.gSFinal = some gs) (hgenp : r.gEnpFinal = some genp) :
    ∃ rec, extractSmdCdsEnergy (some r) spRaw = .ok (some rec)
      ∧ rec.gcdsKcal = convertEnergyUnit (gs - genp) haLit kcalPerMolLit
      ∧ rec.gcdsHa = gs - genp
      ∧ (∀ sv, r.cdsSummaryFinal = some sv →
          rec.optSummaryMatch = some (decide (|rec.gcdsKcal - sv| ≤ 1 / 10000))
          ∧ rec.optSummaryDiff = some |rec.gcdsKcal - sv|) := by
  have hne : r.nonempty := Or.inl (by rw [hgs]; exact Option.noConfusion)
  simp only [extractSmdCdsEnergy]
  rw [if_pos hne, hgs, hgenp]
  cases hsum : r.cdsSummaryFinal with
  | none =>
    refine ⟨_, rfl, rfl, rfl, ?_⟩
    intro sv hsv
    exact Option.noConfusion hsv
  | some sv0 =>
    refine ⟨_, rfl, rfl, rfl, ?_⟩
    intro sv hsv
    cases hsv
    exact ⟨rfl, rfl⟩

/-- Witness for C8 at concrete raw values with a summary far outside the
`1e-4` tolerance. -/
theorem C8_witness :
    ∃ rec, extractSmdCdsEnergy
        (some ⟨some 5, some 3, some 900, none⟩) (some ⟨none, none, none, some 7⟩)
        = .ok (some rec)
      ∧ rec.gcdsKcal = convertEnergyUnit ((5 : ℚ) - 3) haLit kcalPerMolLit
      ∧ rec.gcdsHa = (5 : ℚ) - 3
      ∧ (∀ sv, (some (900 : ℚ)) = some sv →
          rec.optSummaryMatch = some (decide (|rec.gcdsKcal - sv| ≤ 1 / 10000))
          ∧ rec.optSummaryDiff = some |rec.gcdsKcal - sv|) :=
  C8_cds_mismatch_nonfatal ⟨some 5, some 3, some 900, none⟩
    (some ⟨none, none, none, some 7⟩) 5 3 rfl rfl

/-- C10: `_extract_smd_cds_energy` (i) raises `UnboundLocalError` — it
never returns — exactly on the summary-fallback path (summary marker
matched, components not both matched): the `"G_CDS (Ha)"` entry of the
result reads the `cds_hartree` local that only the component path
assigns; (ii) returns a record when both component values are present;
(iii) returns `None` normally when no CDS source matched at all. -/
theorem C10_summary_fallback_unbound_local :
    (∀ (r : SmdRawValues) (spRaw : Option SmdRawValues) (sv : ℚ),
        r.cdsSummaryFinal = some sv →
        (r.gSFinal = none ∨ r.gEnpFinal = none) →
        extractSmdCdsEnergy (some r) spRaw = .error ())
    ∧ (∀ (r : SmdRawValues) (spRaw : Option SmdRawValues) (gs genp : ℚ),
        r.gSFinal = some gs → r.gEnpFinal = some genp →
        ∃ rec, extractSmdCdsEnergy (some r) spRaw = .ok (some rec))
    ∧ (∀ (r : SmdRawValues) (spRaw : Option SmdRawValues),
        r.cdsSummaryFinal = none →
        (r.gSFinal = none ∨ r.gEnpFinal = none) →
        extractSmdCdsEnergy (some r) spRaw = .ok none)
    ∧ (∀ spRaw, extractSmdCdsEnergy none spRaw = .ok none) := by
  refine ⟨?_, ?_, ?_, fun spRaw => rfl⟩
  · intro r spRaw sv hsum hcomp
    have hne : r.nonempty := Or.inr (Or.inr (Or.inl (by rw [hsum]; exact Option.noConfusion)))
    simp only [extractSmdCdsEnergy]
    rw [if_pos hne]
    rcases hcomp with h | h <;> rw [h, hsum] <;> try (cases r.gSFinal <;> rfl)
  · intro r spRaw gs genp hgs hgenp
    have hne : r.nonempty := Or.inl (by rw [hgs]; exact Option.noConfusion)
    simp only [extractSmdCdsEnergy]
    rw [if_pos hne, hgs, hgenp]
    cases hsum : r.cdsSummaryFinal with
    | none => exact ⟨_, rfl⟩
    | some sv0 => exact ⟨_, rfl⟩
  · intro r spRaw hsum hcomp
    by_cases hne : r.nonempty
    · simp only [extractSmdCdsEnergy]
      rw [if_pos hne]
      rcases hcomp with h | h <;> rw [h, hsum] <;> try (cases r.gSFinal <;> rfl)
    · simp only [extractSmdCdsEnergy]
      rw [if_neg hne]

/-- Witness for C10 at concrete raw values: summary present, `G-ENP`
missing → `UnboundLocalError`. -/
theorem C10_witness :
    extractSmdCdsEnergy (some ⟨some 5, none, some 2, none⟩) none = .error () :=
  C10_summary_fallback_unbound_local.1 ⟨some 5, none, some 2, none⟩ none 2
    rfl (Or.inr rfl)

/-! ## Profile-filter lemmas -/

theorem pyMinAux_mem (key : Stage → Option ℚ) (best : Stage) (bk : Option ℚ)
    (l : List Stage) (m : Stage) (h : pyMinAux key best bk l = .ok m) :
    m = best ∨ m ∈ l := by
  induction l generalizing best bk with
  | nil =>
    simp only [pyMinAux] at h
    cases h
    exact Or.inl rfl
  | cons x xs ih =>
    simp only [pyMinAux] at h
    split at h
    · split at h
      · rcases ih _ _ h with h' | h'
        · exact Or.inr (h' ▸ List.mem_cons_self x xs)
        · exact Or.inr (List.mem_cons_of_mem x h')
      · rcases ih _ _ h with h' | h'
        · exact Or.inl h'
        · exact Or.inr (List.mem_cons_of_mem x h')
    · simp at h

theorem pyMinByKey_mem (key : Stage → Option ℚ) (l : List Stage) (m : Stage)
    (h : pyMinByKey key l = .ok m) : m ∈ l := by
  cases l with
  | nil => simp [pyMinByKey] at h
  | cons x xs =>
    simp only [pyMinByKey] at h
    rcases pyMinAux_mem key x (key x) xs m h with h' | h'
    · exact h' ▸ List.mem_cons_self x xs
    · exact List.mem_cons_of_mem x h'

/-- The second half of a group's filtered output comes from the stages
without a calc-type. -/
theorem part2_cases (e : Stage → Option ℚ) (stages : List Stage)
    (p2 : List Stage)
    (h : (if stages.filter (fun s => !isCalcTyped s) ≠ [] then
        (pyMinByKey e (stages.filter (fun s => !isCalcTyped s))).map (fun m => [m])
      else .ok []) = .ok p2) :
    ∀ st ∈ p2, st ∈ stages.filter (fun s => !isCalcTyped s) := by
  by_cases hn : stages.filter (fun s => !isCalcTyped s) ≠ []
  · rw [if_pos hn] at h
    cases hm : pyMinByKey e (stages.filter (fun s => !isCalcTyped s)) with
    | error er => rw [hm] at h; simp [Except.map] at h
    | ok m =>
      rw [hm] at h
      simp only [Except.map] at h
      injection h with h
      subst h
      intro st hst
      rw [List.mem_singleton.mp hst]
      exact pyMinByKey_mem _ _ _ hm
  · rw [if_neg hn] at h
    injection h with h
    subst h
    simp

/-- When the group has `full_cat` entries and their minimum is `M`,
`groupFiltered` produces `M`, the first same-species `pol_cat`/`frz_cat`
entries, and a tail from the calc-type-free stages. -/
theorem groupFiltered_full_branch (e : Stage → Option ℚ)
    (stages part : List Stage) (M : Stage)
    (hmin : pyMinByKey e ((stages.filter isCalcTyped).filter
      (fun s => decide (s.calcType = some fullCatLit))) = .ok M)
    (h : groupFiltered e stages = .ok part) :
    ∃ p2, part =
      ([M]
        ++ (((stages.filter isCalcTyped).filter (fun s =>
              decide (s.calcType = some polCatLit)
              && decide (s.species = M.species))).head?).toList
        ++ (((stages.filter isCalcTyped).filter (fun s =>
              decide (s.calcType = some frzCatLit)
              && decide (s.species = M.species))).head?).toList) ++ p2
      ∧ ∀ st ∈ p2, st ∈ stages.filter (fun s => !isCalcTyped s) := by
  have hfull : (stages.filter isCalcTyped).filter
      (fun s => decide (s.calcType = some fullCatLit)) ≠ [] := by
    intro hc
    rw [hc] at hmin
    simp [pyMinByKey] at hmin
  have hcts : stages.filter isCalcTyped ≠ [] := by
    intro hc
    rw [hc] at hfull
    simp at hfull
  simp only [groupFiltered] at h
  rw [if_pos hcts, if_pos hfull, hmin] at h
  cases hp2 : (if stages.filter (fun s => !isCalcTyped s) ≠ [] then
      (pyMinByKey e (stages.filter (fun s => !isCalcTyped s))).map (fun m => [m])
    else .ok []) with
  | error er =>
    rw [hp2] at h
    simp [Except.map, Except.bind] at h
  | ok p2 =>
    rw [hp2] at h
    simp only [Except.map, Except.bind] at h
    injection h with h
    subst h
    exact ⟨p2, rfl, part2_cases e stages p2 hp2⟩

/-- Everything `groupFiltered` keeps belongs to the group. -/
theorem groupFiltered_sub (e : Stage → Option ℚ) (stages part : List Stage)
    (h : groupFiltered e stages = .ok part) : ∀ st ∈ part, st ∈ stages := by
  have hncts : ∀ st ∈ stages.filter (fun s => !isCalcTyped s), st ∈ stages :=
    fun st hst => (List.mem_filter.mp hst).1
  have hcts : ∀ st ∈ stages.filter isCalcTyped, st ∈ stages :=
    fun st hst => (List.mem_filter.mp hst).1
  by_cases h2 : (stages.filter isCalcTyped).filter
      (fun s => decide (s.calcType = some fullCatLit)) ≠ []
  · have h1 : stages.filter isCalcTyped ≠ [] := by
      intro hc; rw [hc] at h2; simp at h2
    cases hmin : pyMinByKey e ((stages.filter isCalcTyped).filter
        (fun s => decide (s.calcType = some fullCatLit))) with
    | error er =>
      exfalso
      simp only [groupFiltered] at h
      rw [if_pos h1, if_pos h2, hmin] at h
      simp [Except.map, Except.bind] at h
    | ok M =>
      obtain ⟨p2, hpart, hp2⟩ := groupFiltered_full_branch e stages part M hmin h
      intro st hst
      rw [hpart] at hst
      rcases List.mem_append.mp hst with hst | hst
      · rcases List.mem_append.mp hst with hst | hst
        · rcases List.mem_append.mp hst with hst | hst
          · rw [List.mem_singleton.mp hst]
            exact hcts _ (List.mem_filter.mp (pyMinByKey_mem _ _ _ hmin)).1
          · exact hcts _ (List.mem_filter.mp
              (List.mem_of_mem_head? (Option.mem_toList.mp hst))).1
        · exact hcts _ (List.mem_filter.mp
            (List.mem_of_mem_head? (Option.mem_toList.mp hst))).1
      · exact hncts _ (hp2 st hst)
  · by_cases h1 : stages.filter isCalcTyped ≠ []
    · cases hmin : pyMinByKey e (stages.filter isCalcTyped) with
      | error er =>
        exfalso
        simp only [groupFiltered] at h
        rw [if_pos h1, if_neg h2, hmin] at h
        simp [Except.map, Except.bind] at h
      | ok M =>
        simp only [groupFiltered] at h
        rw [if_pos h1, if_neg h2, hmin] at h
        cases hp2 : (if stages.filter (fun s => !isCalcTyped s) ≠ [] then
            (pyMinByKey e (stages.filter (fun s => !isCalcTyped s))).map
              (fun m => [m])
          else .ok []) with
        | error er =>
          rw [hp2] at h
          simp [Except.map, Except.bind] at h
        | ok p2 =>
          rw [hp2] at h
          simp only [Except.map, Except.bind] at h
          injection h with h
          subst h
          intro st hst
          rcases List.mem_append.mp hst with hst | hst
          · exact hcts _ (List.mem_filter.mp hst).1
          · exact hncts _ (part2_cases e stages p2 hp2 st hst)
    · push_neg at h1
      simp only [groupFiltered] at h
      rw [if_neg (fun hc => hc h1)] at h
      cases hp2 : (if stages.filter (fun s => !isCalcTyped s) ≠ [] then
          (pyMinByKey e (stages.filter (fun s => !isCalcTyped s))).map
            (fun m => [m])
        else .ok []) with
      | error er =>
        rw [hp2] at h
        simp [Except.map, Except.bind] at h
      | ok p2 =>
        rw [hp2] at h
        simp only [Except.map, Except.bind] at h
        injection h with h
        subst h
        intro st hst
        rcases List.mem_append.mp hst with hst | hst
        · simp at hst
        · exact hncts _ (part2_cases e stages p2 hp2 st hst)

/-- Every group of `filterGroups`' input contributes an `ok` filtered
part, all of whose stages appear in the overall output. -/
theorem filterGroups_ok_of_mem (e : Stage → Option ℚ)
    (groups : List (List Char × List Stage)) (F : List Stage)
    (h : filterGroups e groups = .ok F) :
    ∀ k stages, (k, stages) ∈ groups →
      ∃ part, groupFiltered e stages = .ok part ∧ ∀ st ∈ part, st ∈ F := by
  induction groups generalizing F with
  | nil => simp
  | cons g rest ih =>
    obtain ⟨k0, stages0⟩ := g
    simp only [filterGroups] at h
    cases hg : groupFiltered e stages0 with
    | error er => rw [hg] at h; simp [Except.bind] at h
    | ok part0 =>
      rw [hg] at h
      cases hr : filterGroups e rest with
      | error er => rw [hr] at h; simp [Except.bind, Except.map] at h
      | ok restF =>
        rw [hr] at h
        simp only [Except.bind, Except.map] at h
        injection h with h
        subst h
        intro k stages hmem
        rcases List.mem_cons.mp hmem with heq | hmem'
        · injection heq with hk hs
          subst hk
          subst hs
          exact ⟨part0, hg, fun st hst => List.mem_append_left _ hst⟩
        · obtain ⟨part, hpart, hsub⟩ := ih restF hr k stages hmem'
          exact ⟨part, hpart, fun st hst =>
            List.mem_append_right _ (hsub st hst)⟩

/-- Conversely every stage of `filterGroups`' output comes from some
input group's filtered part. -/
theorem filterGroups_mem_inv (e : Stage → Option ℚ)
    (groups : List (List Char × List Stage)) (F : List Stage)
    (h : filterGroups e groups = .ok F) :
    ∀ st ∈ F, ∃ k stages part, (k, stages) ∈ groups
      ∧ groupFiltered e stages = .ok part ∧ st ∈ part := by
  induction groups generalizing F with
  | nil =>
    simp only [filterGroups] at h
    injection h with h
    subst h
    simp
  | cons g rest ih =>
    obtain ⟨k0, stages0⟩ := g
    simp only [filterGroups] at h
    cases hg : groupFiltered e stages0 with
    | error er => rw [hg] at h; simp [Except.bind] at h
    | ok part0 =>
      rw [hg] at h
      cases hr : filterGroups e rest with
      | error er => rw [hr] at h; simp [Except.bind, Except.map] at h
      | ok restF =>
        rw [hr] at h
        simp only [Except.bind, Except.map] at h
        injection h with h
        subst h
        intro st hst
        rcases List.mem_append.mp hst with hst | hst
        · exact ⟨k0, stages0, part0, List.mem_cons_self _ _, hg, hst⟩
        · obtain ⟨k, stages, part, hmem, hpart, hin⟩ := ih restF hr st hst
          exact ⟨k, stages, part, List.mem_cons_of_mem _ hmem, hpart, hin⟩

theorem mem_insertByIdx (p : List Stage) (s a : Stage) (l : List Stage) :
    a ∈ insertByIdx p s l ↔ a = s ∨ a ∈ l := by
  induction l with
  | nil => simp [insertByIdx]
  | cons x xs ih =>
    simp only [insertByIdx]
    split
    · rw [List.mem_cons, ih, List.mem_cons]
      tauto
    · simp only [List.mem_cons]

theorem mem_sortByProfileIndex (p : List Stage) (l : List Stage) (a : Stage) :
    a ∈ sortByProfileIndex p l ↔ a ∈ l := by
  have key : ∀ (l : List Stage) (acc : List Stage),
      (a ∈ l.foldl (fun acc s => insertByIdx p s acc) acc ↔ a ∈ acc ∨ a ∈ l) := by
    intro l
    induction l with
    | nil => simp
    | cons x xs ih =>
      intro acc
      rw [List.foldl_cons, ih (insertByIdx p x acc), mem_insertByIdx,
        List.mem_cons]
      tauto
  simpa [sortByProfileIndex] using key l []

/-! ## Grouping lemmas -/

/-- Inserting under a fresh key appends a new singleton group. -/
theorem groupInsert_not_mem (kk : List Char) (st : Stage)
    (acc : List (List Char × List Stage)) (h : kk ∉ acc.map Prod.fst) :
    groupInsert kk st acc = acc ++ [(kk, [st])] := by
  induction acc with
  | nil => rfl
  | cons g rest ih =>
    obtain ⟨k0, l0⟩ := g
    simp only [List.map_cons, List.mem_cons] at h
    push_neg at h
    simp only [groupInsert]
    rw [if_neg (fun hc => h.1 hc.symm), ih h.2]
    rfl

/-- Inserting under an existing key (keys distinct) extends that key's
group and leaves everything else alone. -/
theorem groupInsert_mem_char (kk : List Char) (st : Stage) :
    ∀ (acc : List (List Char × List Stage)),
    kk ∈ acc.map Prod.fst → (acc.map Prod.fst).Nodup →
    ((groupInsert kk st acc).map Prod.fst = acc.map Prod.fst
     ∧ ∀ k l, ((k, l) ∈ groupInsert kk st acc ↔
        ((k = kk ∧ ∃ l0, (kk, l0) ∈ acc ∧ l = l0 ++ [st])
         ∨ (k ≠ kk ∧ (k, l) ∈ acc)))) := by
  intro acc
  induction acc with
  | nil => intro h; simp at h
  | cons g rest ih =>
    obtain ⟨k0, l0⟩ := g
    intro hmem hnd
    simp only [List.map_cons, List.nodup_cons] at hnd
    by_cases hk : k0 = kk
    · subst hk
      constructor
      · simp [groupInsert]
      · intro k l
        simp only [groupInsert, if_pos rfl]
        constructor
        · intro hin
          rcases List.mem_cons.mp hin with heq | hin'
          · injection heq with hk1 hl1
            subst hk1
            exact Or.inl ⟨rfl, l0, List.mem_cons_self _ _, hl1⟩
          · refine Or.inr ⟨?_, List.mem_cons_of_mem _ hin'⟩
            intro hc
            subst hc
            exact hnd.1 (List.mem_map_of_mem Prod.fst hin')
        · rintro (⟨hkk, l1, hl1, hl⟩ | ⟨hne, hin'⟩)
          · subst hkk
            rcases List.mem_cons.mp hl1 with heq | hin'
            · injection heq with _ hl0
              subst hl0
              subst hl
              exact List.mem_cons_self _ _
            · exact absurd (List.mem_map_of_mem Prod.fst hin') hnd.1
          · rcases List.mem_cons.mp hin' with heq | hin''
            · injection heq with hk1 _
              exact absurd hk1 hne
            · exact List.mem_cons_of_mem _ hin''
    · have hmem' : kk ∈ rest.map Prod.fst := by
        rcases List.mem_cons.mp hmem with heq | h'
        · exact absurd heq.symm hk
        · exact h'
      obtain ⟨hkeys, hiff⟩ := ih hmem' hnd.2
      constructor
      · simp only [groupInsert, if_neg hk, List.map_cons, hkeys]
      · intro k l
        simp only [groupInsert, if_neg hk]
        constructor
        · intro hin
          rcases List.mem_cons.mp hin with heq | hin'
          · injection heq with hk1 hl1
            subst hk1
            subst hl1
            exact Or.inr ⟨fun hc => hk hc, List.mem_cons_self _ _⟩
          · rcases (hiff k l).mp hin' with ⟨hkk, l1, hl1, hl⟩ | ⟨hne, hin''⟩
            · exact Or.inl ⟨hkk, l1, List.mem_cons_of_mem _ hl1, hl⟩
            · exact Or.inr ⟨hne, List.mem_cons_of_mem _ hin''⟩
        · rintro (⟨hkk, l1, hl1, hl⟩ | ⟨hne, hin'⟩)
          · subst hkk
            rcases List.mem_cons.mp hl1 with heq | hin''
            · injection heq with hk1 _
              exact absurd hk1.symm hk
            · exact List.mem_cons_of_mem _
                ((hiff k l).mpr (Or.inl ⟨rfl, l1, hin'', hl⟩))
          · rcases List.mem_cons.mp hin' with heq | hin''
            · rw [heq]
              exact List.mem_cons_self _ _
            · exact List.mem_cons_of_mem _
                ((hiff k l).mpr (Or.inr ⟨hne, hin''⟩))

/-- The grouping invariant carried through `groupByStage`'s fold. -/
theorem groupByStage_foldl_inv (profile : List Stage) :
    ∀ (processed : List Stage) (acc : List (List Char × List Stage)),
    (acc.map Prod.fst).Nodup →
    (∀ k l, (k, l) ∈ acc →
      l = processed.filter (fun s => decide (s.stage = k))) →
    (∀ k, processed.filter (fun s => decide (s.stage = k)) ≠ [] →
      k ∈ acc.map Prod.fst) →
    (((profile.foldl (fun g st => groupInsert st.stage st g) acc).map
        Prod.fst).Nodup
     ∧ (∀ k l, (k, l) ∈ profile.foldl (fun g st => groupInsert st.stage st g) acc →
        l = (processed ++ profile).filter (fun s => decide (s.stage = k)))
     ∧ (∀ k, (processed ++ profile).filter (fun s => decide (s.stage = k)) ≠ [] →
        k ∈ (profile.foldl (fun g st => groupInsert st.stage st g) acc).map
          Prod.fst)) := by
  induction profile with
  | nil =>
    intro processed acc hnd h1 h2
    simp only [List.foldl_nil, List.append_nil]
    exact ⟨hnd, h1, h2⟩
  | cons st rest ih =>
    intro processed acc hnd h1 h2
    rw [List.foldl_cons]
    have hsplit : ∀ k, (processed ++ [st]).filter (fun s => decide (s.stage = k))
        = processed.filter (fun s => decide (s.stage = k))
          ++ if st.stage = k then [st] else [] := by
      intro k
      rw [List.filter_append]
      congr 1
      by_cases hc : st.stage = k
      · simp [List.filter, hc]
      · simp [List.filter, hc]
    by_cases hmem : st.stage ∈ acc.map Prod.fst
    · obtain ⟨hkeys, hiff⟩ := groupInsert_mem_char st.stage st acc hmem hnd
      have hres := ih (processed ++ [st]) (groupInsert st.stage st acc)
        (by rw [hkeys]; exact hnd)
        (by
          intro k l hin
          rcases (hiff k l).mp hin with ⟨hkk, l0, hl0, hl⟩ | ⟨hne, hin'⟩
          · subst hkk
            rw [hsplit st.stage, if_pos rfl, hl, h1 _ _ hl0]
          · rw [hsplit k, if_neg (fun hc => hne hc.symm), List.append_nil]
            exact h1 _ _ hin')
        (by
          intro k hne
          rw [hkeys]
          rw [hsplit k] at hne
          by_cases hc : st.stage = k
          · exact hc ▸ hmem
          · rw [if_neg hc, List.append_nil] at hne
            exact h2 k hne)
      rw [← List.append_cons processed st rest] at hres
      exact hres
    · rw [groupInsert_not_mem st.stage st acc hmem]
      have hndnew : (((acc ++ [(st.stage, [st])]).map Prod.fst)).Nodup := by
        rw [List.map_append, List.nodup_append]
        refine ⟨hnd, by simp, ?_⟩
        intro k hk hk'
        simp only [List.map_cons, List.map_nil, List.mem_singleton] at hk'
        subst hk'
        exact hmem hk
      have hres := ih (processed ++ [st]) (acc ++ [(st.stage, [st])]) hndnew
        (by
          intro k l hin
          rcases List.mem_append.mp hin with hin' | hin'
          · have hne : st.stage ≠ k := by
              intro hc
              subst hc
              exact hmem (List.mem_map_of_mem Prod.fst hin')
            rw [hsplit k, if_neg hne, List.append_nil]
            exact h1 _ _ hin'
          · simp only [List.mem_singleton] at hin'
            injection hin' with hk1 hl1
            subst hk1
            subst hl1
            rw [hsplit st.stage, if_pos rfl]
            have hp : processed.filter (fun s => decide (s.stage = st.stage))
                = [] := by
              by_contra hne
              exact hmem (h2 _ hne)
            rw [hp, List.nil_append])
        (by
          intro k hne
          rw [List.map_append]
          rw [hsplit k] at hne
          by_cases hc : st.stage = k
          · subst hc
            exact List.mem_append_right _ (by simp)
          · rw [if_neg hc, List.append_nil] at hne
            exact List.mem_append_left _ (h2 k hne))
      rw [← List.append_cons processed st rest] at hres
      exact hres

/-- `groupByStage` groups are exactly the stage-name filters. -/
theorem groupByStage_char (profile : List Stage) (k : List Char)
    (l : List Stage) (h : (k, l) ∈ groupByStage profile) :
    l = profile.filter (fun s => decide (s.stage = k)) := by
  have hinv := (groupByStage_foldl_inv profile [] [] (by simp) (by simp)
    (by simp)).2.1
  simpa [groupByStage] using hinv k l h

/-- Every nonempty stage-name filter appears as a `groupByStage` group. -/
theorem groupByStage_cover (profile : List Stage) (k : List Char)
    (h : profile.filter (fun s => decide (s.stage = k)) ≠ []) :
    (k, profile.filter (fun s => decide (s.stage = k))) ∈ groupByStage profile := by
  have hinv := groupByStage_foldl_inv profile [] [] (by simp) (by simp) (by simp)
  have hkey := hinv.2.2 k (by simpa using h)
  rw [List.mem_map] at hkey
  obtain ⟨⟨k', l'⟩, hmem, hk⟩ := hkey
  dsimp only at hk
  subst hk
  have hl := hinv.2.1 k' l' hmem
  rw [List.nil_append] at hl
  rw [← hl]
  simpa [groupByStage] using hmem

/-- A `pol_cat` or `frz_cat` decomposition variant counts as
calc-typed. -/
theorem isCalcTyped_pol_frz (st : Stage)
    (h : st.calcType = some polCatLit ∨ st.calcType = some frzCatLit) :
    isCalcTyped st = true := by
  rcases h with h | h <;> · rw [isCalcTyped, h]; decide

/-- **C7.** For every profile whose energies (of the requested type) are
all present, and every stage-name group whose calc-typed entries include
`full_cat` ones with CPython minimum `M`: the filtered profile keeps
`M`, and any kept `pol_cat`/`frz_cat` entry of that stage name has
exactly `M`'s species combination — even when a lower-energy
`pol_cat`/`frz_cat` entry exists at a different species combination. -/
theorem C7_filter_min_full_cat (profile : List Stage) (etype : EType)
    (out : List Stage) (name : List Char) (M : Stage)
    (hall : ∀ st ∈ profile, (energyKeyOf st etype).isSome = true)
    (hres : filterProfile profile etype = .ok out)
    (hmin : pyMinByKey (fun st => energyKeyOf st etype)
      (((profile.filter (fun s => decide (s.stage = name))).filter
        isCalcTyped).filter
        (fun s => decide (s.calcType = some fullCatLit))) = .ok M) :
    M ∈ out
    ∧ ∀ st ∈ out, st.stage = name →
        (st.calcType = some polCatLit ∨ st.calcType = some frzCatLit) →
        st.species = M.species := by
  have hfull : ((profile.filter (fun s => decide (s.stage = name))).filter
      isCalcTyped).filter (fun s => decide (s.calcType = some fullCatLit)) ≠ [] := by
    intro hc
    rw [hc] at hmin
    simp [pyMinByKey] at hmin
  have hgrp : profile.filter (fun s => decide (s.stage = name)) ≠ [] := by
    intro hc
    rw [hc] at hfull
    simp at hfull
  have hany : (profile.any fun st => (energyKeyOf st etype).isSome) = true := by
    obtain ⟨x, hx⟩ := List.exists_mem_of_ne_nil _ hgrp
    exact List.any_eq_true.mpr ⟨x, (List.mem_filter.mp hx).1,
      hall x (List.mem_filter.mp hx).1⟩
  simp only [filterProfile, hany, Bool.not_true, Bool.false_eq_true,
    if_false] at hres
  cases hF : filterGroups (fun st => energyKeyOf st etype)
      (groupByStage profile) with
  | error er => rw [hF] at hres; simp [Except.map] at hres
  | ok F =>
    rw [hF] at hres
    simp only [Except.map] at hres
    injection hres with hres
    subst hres
    have hgmem : (name, profile.filter (fun s => decide (s.stage = name)))
        ∈ groupByStage profile := groupByStage_cover profile name hgrp
    obtain ⟨part, hpart, hsub⟩ :=
      filterGroups_ok_of_mem _ _ _ hF name _ hgmem
    obtain ⟨p2, hshape, hp2⟩ := groupFiltered_full_branch _ _ _ M hmin hpart
    constructor
    · rw [mem_sortByProfileIndex]
      refine hsub M ?_
      rw [hshape]
      exact List.mem_append_left _ (List.mem_append_left _
        (List.mem_append_left _ (List.mem_singleton.mpr rfl)))
    · intro st hst hstage hct
      rw [mem_sortByProfileIndex] at hst
      obtain ⟨k, stages, part', hkmem, hpart', hin⟩ :=
        filterGroups_mem_inv _ _ _ hF st hst
      have hstages := groupByStage_char profile k stages hkmem
      have hstk : st.stage = k := by
        have hs := groupFiltered_sub _ _ _ hpart' st hin
        rw [hstages] at hs
        exact of_decide_eq_true (List.mem_filter.mp hs).2
      have hkname : k = name := hstk.symm.trans hstage
      subst hkname
      rw [hstages] at hpart'
      obtain ⟨p2', hshape', hp2'⟩ :=
        groupFiltered_full_branch _ _ _ M hmin hpart'
      rw [hshape'] at hin
      rcases List.mem_append.mp hin with hin | hin
      · rcases List.mem_append.mp hin with hin | hin
        · rcases List.mem_append.mp hin with hin | hin
          · exfalso
            rw [List.mem_singleton.mp hin] at hct
            have hMfull : M.calcType = some fullCatLit :=
              of_decide_eq_true
                (List.mem_filter.mp (pyMinByKey_mem _ _ _ hmin)).2
            rcases hct with hc | hc <;>
              · rw [hMfull] at hc
                injection hc with hc
                exact absurd hc (by decide)
          · have hmf := (List.mem_filter.mp
              (List.mem_of_mem_head? (Option.mem_toList.mp hin))).2
            rw [Bool.and_eq_true] at hmf
            exact of_decide_eq_true hmf.2
        · have hmf := (List.mem_filter.mp
            (List.mem_of_mem_head? (Option.mem_toList.mp hin))).2
          rw [Bool.and_eq_true] at hmf
          exact of_decide_eq_true hmf.2
      · exfalso
        have hmf := (List.mem_filter.mp (hp2' st hin)).2
        rw [isCalcTyped_pol_frz st hct] at hmf
        simp at hmf

/-- Witness for C7 on `C7profile`: the filtered profile is
`[full_cat@X, pol_cat@X]`, keeping the minimal `full_cat` at species `X`
and only the same-species `pol_cat`, even though lower-energy
`pol_cat`/`frz_cat` entries exist at species `Y`. -/
theorem C7_witness :
    stX fullCatLit "X".data 5
      ∈ [stX fullCatLit "X".data 5, stX polCatLit "X".data 3]
    ∧ ∀ st ∈ [stX fullCatLit "X".data 5, stX polCatLit "X".data 3],
        st.stage = "preTS".data →
        (st.calcType = some polCatLit ∨ st.calcType = some frzCatLit) →
        st.species = (stX fullCatLit "X".data 5).species :=
  C7_filter_min_full_cat C7profile .E
    [stX fullCatLit "X".data 5, stX polCatLit "X".data 3]
    "preTS".data (stX fullCatLit "X".data 5)
    (by decide) (by decide) (by decide)

/-! ## Profile-assembler lemmas -/

theorem dictInsert_keys {β : Type} (k : List Char) (v : β)
    (l : List (List Char × β)) (c : List Char) :
    c ∈ (dictInsert k v l).map Prod.fst ↔ c = k ∨ c ∈ l.map Prod.fst := by
  induction l with
  | nil => simp [dictInsert]
  | cons p rest ih =>
    obtain ⟨k0, v0⟩ := p
    simp only [dictInsert]
    by_cases hc : k0 = k
    · subst hc
      rw [if_pos rfl]
      simp only [List.map_cons, List.mem_cons]
      tauto
    · rw [if_neg hc]
      simp only [List.map_cons, List.mem_cons, ih]
      tauto

theorem dictInsert_mem {β : Type} (k : List Char) (v : β)
    (l : List (List Char × β)) (cp : List Char × β)
    (h : cp ∈ dictInsert k v l) : cp = (k, v) ∨ cp ∈ l := by
  induction l with
  | nil =>
    simp only [dictInsert, List.mem_singleton] at h
    exact Or.inl h
  | cons p rest ih =>
    obtain ⟨k0, v0⟩ := p
    simp only [dictInsert] at h
    by_cases hc : k0 = k
    · subst hc
      rw [if_pos rfl] at h
      rcases List.mem_cons.mp h with h | h
      · exact Or.inl h
      · exact Or.inr (List.mem_cons_of_mem _ h)
    · rw [if_neg hc] at h
      rcases List.mem_cons.mp h with h | h
      · exact Or.inr (h ▸ List.mem_cons_self _ _)
      · rcases ih h with h | h
        · exact Or.inl h
        · exact Or.inr (List.mem_cons_of_mem _ h)

/-- Invariant of the catalyst loop of `extract_profiles`: the resulting
keys are the accumulator's keys plus exactly the catalysts whose
generated profile is nonempty, and every new entry carries that
catalyst's generated raw profile. -/
theorem buildProfilesList_inv (raw : List RawRecord)
    (components : Components) (lookup : List (List Char × EnergyVal))
    (fl : Bool) :
    ∀ (cs : List (List Char)) (acc res : List (List Char × ProfileSet)),
    buildProfilesList raw components lookup fl cs acc = .ok res →
    ((∀ c, c ∈ res.map Prod.fst ↔
        (c ∈ acc.map Prod.fst
         ∨ (c ∈ cs ∧ generateCatalystProfile c raw components lookup ≠ [])))
     ∧ ∀ cp ∈ res, cp ∈ acc
        ∨ cp.2.raw = generateCatalystProfile cp.1 raw components lookup) := by
  intro cs
  induction cs with
  | nil =>
    intro acc res h
    simp only [buildProfilesList] at h
    injection h with h
    subst h
    refine ⟨fun c => ⟨fun h' => Or.inl h', fun h' => ?_⟩,
      fun cp hcp => Or.inl hcp⟩
    rcases h' with h' | ⟨h1, _⟩
    · exact h'
    · exact absurd h1 (List.not_mem_nil c)
  | cons c0 cs ih =>
    intro acc res h
    simp only [buildProfilesList] at h
    by_cases hemp : generateCatalystProfile c0 raw components lookup = []
    · rw [if_pos hemp] at h
      obtain ⟨hkeys, hvals⟩ := ih acc res h
      refine ⟨fun c => ?_, hvals⟩
      rw [hkeys c]
      constructor
      · rintro (h' | ⟨h1, h2⟩)
        · exact Or.inl h'
        · exact Or.inr ⟨List.mem_cons_of_mem _ h1, h2⟩
      · rintro (h' | ⟨h1, h2⟩)
        · exact Or.inl h'
        · rcases List.mem_cons.mp h1 with rfl | h1'
          · exact absurd hemp h2
          · exact Or.inr ⟨h1', h2⟩
    · rw [if_neg hemp] at h
      have hstep : ∀ pset : ProfileSet,
          pset.raw = generateCatalystProfile c0 raw components lookup →
          buildProfilesList raw components lookup fl cs
            (dictInsert c0 pset acc) = .ok res →
          ((∀ c, c ∈ res.map Prod.fst ↔
              (c ∈ acc.map Prod.fst
               ∨ (c ∈ c0 :: cs
                  ∧ generateCatalystProfile c raw components lookup ≠ [])))
           ∧ ∀ cp ∈ res, cp ∈ acc
              ∨ cp.2.raw = generateCatalystProfile cp.1 raw components lookup) := by
        intro pset hpset hrec
        obtain ⟨hkeys, hvals⟩ := ih (dictInsert c0 pset acc) res hrec
        constructor
        · intro c
          rw [hkeys c, dictInsert_keys]
          constructor
          · rintro ((rfl | h') | ⟨h1, h2⟩)
            · exact Or.inr ⟨List.mem_cons_self _ _, hemp⟩
            · exact Or.inl h'
            · exact Or.inr ⟨List.mem_cons_of_mem _ h1, h2⟩
          · rintro (h' | ⟨h1, h2⟩)
            · exact Or.inl (Or.inr h')
            · rcases List.mem_cons.mp h1 with rfl | h1'
              · exact Or.inl (Or.inl rfl)
              · exact Or.inr ⟨h1', h2⟩
        · intro cp hcp
          rcases hvals cp hcp with hin | hgen
          · rcases dictInsert_mem _ _ _ _ hin with rfl | hacc
            · exact Or.inr hpset
            · exact Or.inl hacc
          · exact Or.inr hgen
      by_cases hfl : fl = true
      · rw [if_pos hfl] at h
        cases hE : filterProfile
            (generateCatalystProfile c0 raw components lookup) .E with
        | error er => rw [hE] at h; simp [Except.bind] at h
        | ok fE =>
          rw [hE] at h
          cases hG : filterProfile
              (generateCatalystProfile c0 raw components lookup) .G with
          | error er => rw [hG] at h; simp [Except.bind] at h
          | ok fG =>
            rw [hG] at h
            simp only [Except.bind] at h
            exact hstep ⟨generateCatalystProfile c0 raw components lookup,
              some fE, some fG⟩ rfl h
      · rw [if_neg hfl] at h
        exact hstep ⟨generateCatalystProfile c0 raw components lookup,
          none, none⟩ rfl h

/-- `" + ".join` of a list ending in `c` ends in `" + " ++ c`. -/
theorem joinPlus_concat (x : List Char) (xs : List (List Char))
    (c : List Char) :
    joinPlus ((x :: xs) ++ [c]) = joinPlus (x :: xs) ++ (" + ".data ++ c) := by
  rw [List.cons_append]
  simp only [joinPlus]
  rw [List.foldl_append]
  simp [List.append_assoc]

/-- A created stage carries the configuration's stage name and the
joined species string. -/
theorem createStage_stage_species (stageName : List Char)
    (speciesList : List (List Char)) (lookup : List (List Char × EnergyVal))
    (cts0 : Option (List (Option (List Char)))) (st : Stage)
    (h : createStage stageName speciesList lookup cts0 = some st) :
    st.stage = stageName ∧ st.species = joinPlus speciesList := by
  simp only [createStage] at h
  by_cases hsp : speciesList = []
  · rw [if_pos hsp] at h; simp at h
  · rw [if_neg hsp] at h
    split at h
    · simp at h
    · injection h with h
      subst h
      exact ⟨rfl, rfl⟩

/-- When the configuration appends the catalyst, the species list is a
nonempty list followed by the catalyst. -/
theorem stageSpeciesOf_suffix (cfg : StageConfig) (components : Components)
    (catalyst : List Char) (entry : RawRecord)
    (hneeds : cfg.needsCatalyst ∧ ¬cfg.catalystPresent) :
    ∃ x t, (stageSpeciesOf cfg components catalyst entry).1
      = (x :: t) ++ [catalyst] := by
  simp only [stageSpeciesOf]
  rw [if_pos hneeds]
  split
  · split
    · split
      · exact ⟨entry.species, _, rfl⟩
      · exact ⟨entry.species, [], rfl⟩
    · exact ⟨entry.species, [], rfl⟩
  · exact ⟨entry.species, [], rfl⟩

/-- A property established by stage creation holds of every stage the
`_generate_stages` fold emits. -/
theorem generateStagesStep_foldl_prop (cfg : StageConfig)
    (components : Components) (c : List Char)
    (lookup : List (List Char × EnergyVal)) (useSeen : Bool)
    (P : Stage → Prop)
    (hstep : ∀ entry st, createStage cfg.stageName
        (stageSpeciesOf cfg components c entry).1 lookup
        (some (stageSpeciesOf cfg components c entry).2) = some st → P st) :
    ∀ (entries : List RawRecord) (acc : List Stage × List (List (List Char))),
    (∀ st ∈ acc.1, P st) →
    ∀ st ∈ (entries.foldl
        (generateStagesStep cfg components c lookup useSeen) acc).1, P st := by
  intro entries
  induction entries with
  | nil =>
    intro acc hacc st hst
    rw [List.foldl_nil] at hst
    exact hacc st hst
  | cons e rest ih =>
    intro acc hacc
    rw [List.foldl_cons]
    refine ih (generateStagesStep cfg components c lookup useSeen acc e) ?_
    intro st hst
    simp only [generateStagesStep] at hst
    split at hst
    · split at hst
      · exact hacc st hst
      · split at hst
        · rename_i heq
          simp only at hst
          rcases List.mem_append.mp hst with hst | hst
          · exact hacc st hst
          · rw [List.mem_singleton.mp hst]
            exact hstep e _ heq
        · simp only at hst
          exact hacc st hst
    · split at hst
      · rename_i heq
        simp only at hst
        rcases List.mem_append.mp hst with hst | hst
        · exact hacc st hst
        · rw [List.mem_singleton.mp hst]
          exact hstep e _ heq
      · exact hacc st hst

/-- Every stage `_generate_stages` emits carries its configuration's
stage name, and — when the configuration appends the catalyst — its
species string ends in `" + " ++ catalyst`. -/
theorem generateStages_mem (stageType c : List Char) (raw : List RawRecord)
    (components : Components) (lookup : List (List Char × EnergyVal))
    (st : Stage) (h : st ∈ generateStages stageType c raw components lookup) :
    ∃ cfg, stageConfigOf stageType = some cfg ∧ st.stage = cfg.stageName
      ∧ ((cfg.needsCatalyst ∧ ¬cfg.catalystPresent) →
          (" + ".data ++ c) <:+ st.species) := by
  cases hcfg : stageConfigOf stageType with
  | none => simp [generateStages, hcfg] at h
  | some cfg =>
    refine ⟨cfg, rfl, ?_⟩
    simp only [generateStages, hcfg] at h
    by_cases hent : findEntries raw cfg.branch cfg.category
        (if cfg.category = "cat".data then some c else none) = []
    · rw [if_pos hent] at h
      simp at h
    · rw [if_neg hent] at h
      refine generateStagesStep_foldl_prop cfg components c lookup _
        (fun st => st.stage = cfg.stageName
          ∧ ((cfg.needsCatalyst ∧ ¬cfg.catalystPresent) →
              (" + ".data ++ c) <:+ st.species))
        ?_ _ ([], []) (by simp) st h
      intro entry st' hcr
      obtain ⟨hstg, hspec⟩ := createStage_stage_species _ _ _ _ _ hcr
      refine ⟨hstg, fun hneeds => ?_⟩
      obtain ⟨x, t, hx⟩ := stageSpeciesOf_suffix cfg components c entry hneeds
      rw [hspec, hx, joinPlus_concat]
      exact List.suffix_append _ _

/-- In a generated catalyst profile, every `Reactants` stage's species
string ends in `" + " ++ catalyst`. -/
theorem generateCatalystProfile_reactants (c : List Char)
    (raw : List RawRecord) (components : Components)
    (lookup : List (List Char × EnergyVal)) (st : Stage)
    (hst : st ∈ generateCatalystProfile c raw components lookup)
    (hstage : st.stage = "Reactants".data) :
    (" + ".data ++ c) <:+ st.species := by
  have hother : ∀ ty : List Char,
      st ∈ generateStages ty c raw components lookup →
      (∃ cfg, stageConfigOf ty = some cfg ∧ st.stage = cfg.stageName
        ∧ ((cfg.needsCatalyst ∧ ¬cfg.catalystPresent) →
            (" + ".data ++ c) <:+ st.species)) :=
    fun ty h => generateStages_mem ty c raw components lookup st h
  simp only [generateCatalystProfile] at hst
  rcases List.mem_append.mp hst with hst | hst
  · rcases List.mem_append.mp hst with hst | hst
    · rcases List.mem_append.mp hst with hst | hst
      · rcases List.mem_append.mp hst with hst | hst
        · rcases List.mem_append.mp hst with hst | hst
          · -- reactants
            obtain ⟨cfg, hcfg, _, hsuf⟩ := hother _ hst
            have hr : stageConfigOf "reactants".data
                = some ⟨"reactants".data, "no_cat".data, "Reactants".data,
                  true, true, false, some .reactants⟩ := by decide
            rw [hr] at hcfg
            injection hcfg with hcfg
            subst hcfg
            exact hsuf (by simp)
          · -- preTS
            obtain ⟨cfg, hcfg, hstg, _⟩ := hother _ hst
            have hr : stageConfigOf "preTS".data
                = some ⟨"preTS".data, "cat".data, "preTS".data,
                  true, false, false, some .reactants⟩ := by decide
            rw [hr] at hcfg
            injection hcfg with hcfg
            subst hcfg
            rw [hstage] at hstg
            exact absurd hstg (by decide)
        · -- ts_cat
          obtain ⟨cfg, hcfg, hstg, _⟩ := hother _ hst
          have hr : stageConfigOf "ts_cat".data
              = some ⟨"ts".data, "cat".data, "TS".data,
                false, false, true, none⟩ := by decide
          rw [hr] at hcfg
          injection hcfg with hcfg
          subst hcfg
          rw [hstage] at hstg
          exact absurd hstg (by decide)
      · -- ts_nocat
        obtain ⟨cfg, hcfg, hstg, _⟩ := hother _ hst
        have hr : stageConfigOf "ts_nocat".data
            = some ⟨"ts".data, "no_cat".data, "TS".data,
              false, true, false, none⟩ := by decide
        rw [hr] at hcfg
        injection hcfg with hcfg
        subst hcfg
        rw [hstage] at hstg
        exact absurd hstg (by decide)
    · -- postTS
      obtain ⟨cfg, hcfg, hstg, _⟩ := hother _ hst
      have hr : stageConfigOf "postTS".data
          = some ⟨"postTS".data, "cat".data, "postTS".data,
            true, false, false, some .products⟩ := by decide
      rw [hr] at hcfg
      injection hcfg with hcfg
      subst hcfg
      rw [hstage] at hstg
      exact absurd hstg (by decide)
  · -- products
    obtain ⟨cfg, hcfg, hstg, _⟩ := hother _ hst
    have hr : stageConfigOf "products".data
        = some ⟨"products".data, "no_cat".data, "Products".data,
          true, true, false, some .products⟩ := by decide
    rw [hr] at hcfg
    injection hcfg with hcfg
    subst hcfg
    rw [hstage] at hstg
    exact absurd hstg (by decide)

/-- **C2 counterexample.** On the complete record set `C2data` (reaction
`A + B -> P`, catalyst `C`, including a combined `A-B` reactant record)
`extract_profiles` produces exactly one profile — keyed by the catalyst
`C` — and no uncatalyzed pathway: every `Reactants` stage of every
produced profile has the catalyst appended to its species string. -/
theorem C2_counterexample :
    (extractProfiles C2data false).map (fun res => res.map Prod.fst)
      = .ok ["C".data]
    ∧ (extractProfiles C2data false).map (fun res => res.all fun cp =>
        cp.2.raw.all fun st =>
          !(decide (st.stage = "Reactants".data))
            || decide ((" + ".data ++ cp.1) <:+ st.species)) = .ok true := by
  constructor
  · decide
  · decide

/-- **C2 (amended).** `extract_profiles` produces one profile per
catalyst with a nonempty generated profile — and nothing else: there is
no uncatalyzed pathway, and every `Reactants` stage of every produced
profile has the catalyst appended as a final `" + catalyst"` in its
species combination. -/
theorem C2_profiles_per_catalyst_amended (data : List RawRecord) (fl : Bool)
    (res : List (List Char × ProfileSet))
    (hres : extractProfiles data fl = .ok res) :
    (∀ c, c ∈ res.map Prod.fst ↔
      (c ∈ (getComponents data).allCatalysts
        ∧ generateCatalystProfile c data (getComponents data)
            (buildEnergyLookup data) ≠ []))
    ∧ ∀ cp ∈ res, ∀ st ∈ cp.2.raw, st.stage = "Reactants".data →
        (" + ".data ++ cp.1) <:+ st.species := by
  simp only [extractProfiles] at hres
  by_cases hnil : data = []
  · rw [if_pos hnil] at hres
    injection hres with hres
    subst hres
    subst hnil
    refine ⟨fun c => ?_, by simp⟩
    simp [getComponents]
  · rw [if_neg hnil] at hres
    obtain ⟨hkeys, hvals⟩ := buildProfilesList_inv data (getComponents data)
      (buildEnergyLookup data) fl (getComponents data).allCatalysts [] res hres
    constructor
    · intro c
      rw [hkeys c]
      simp
    · intro cp hcp st hst hstage
      rcases hvals cp hcp with h | h
      · simp at h
      · rw [h] at hst
        exact generateCatalystProfile_reactants cp.1 data (getComponents data)
          (buildEnergyLookup data) st hst hstage

/-- Witness for the amended C2 on `C2data`: its extracted profile
dictionary has exactly the nonempty-profile catalysts as keys and
catalyst-suffixed `Reactants` stages. -/
theorem C2_witness :
    (∀ c, c ∈ C2result.map Prod.fst ↔
      (c ∈ (getComponents C2data).allCatalysts
        ∧ generateCatalystProfile c C2data (getComponents C2data)
            (buildEnergyLookup C2data) ≠ []))
    ∧ ∀ cp ∈ C2result, ∀ st ∈ cp.2.raw, st.stage = "Reactants".data →
        (" + ".data ++ cp.1) <:+ st.species :=
  C2_profiles_per_catalyst_amended C2data false C2result rfl

/-! ## Builder-enumeration lemmas -/

theorem foldl_pres {α β : Type} (P : α → Prop) (f : α → β → α)
    (hf : ∀ a b, P a → P (f a b)) :
    ∀ (l : List β) (a : α), P a → P (l.foldl f a) := by
  intro l
  induction l with
  | nil => intro a ha; exact ha
  | cons x xs ih =>
    intro a ha
    rw [List.foldl_cons]
    exact ih _ (hf a x ha)

theorem groupsUpdate_keys (m : MethodCfg) (bs : BasisSet)
    (gs : List (OptKey × OptGroup)) :
    (groupsUpdate m bs gs).map Prod.fst = gs.map Prod.fst
    ∨ (groupsUpdate m bs gs).map Prod.fst
        = gs.map Prod.fst ++ [optKeyOf m bs] := by
  induction gs with
  | nil => exact Or.inr rfl
  | cons kg rest ih =>
    obtain ⟨k0, g0⟩ := kg
    simp only [groupsUpdate]
    by_cases hk : k0 = optKeyOf m bs
    · rw [if_pos hk]
      exact Or.inl rfl
    · rw [if_neg hk]
      simp only [List.map_cons]
      rcases ih with ih | ih
      · rw [ih]; exact Or.inl rfl
      · rw [ih]; exact Or.inr rfl

theorem groupsUpdate_wf (m : MethodCfg) (bs : BasisSet)
    (gs : List (OptKey × OptGroup)) (h : GroupsWF gs) :
    GroupsWF (groupsUpdate m bs gs) := by
  induction gs with
  | nil =>
    refine ⟨by simp [groupsUpdate], ?_⟩
    intro kg hkg
    simp only [groupsUpdate, List.mem_singleton] at hkg
    subst hkg
    refine ⟨rfl, ?_⟩
    intro mb hmb
    by_cases he : (m.spEnabled && bs.spEnabled) = true
    · simp only [if_pos he, List.mem_singleton] at hmb
      subst hmb
      exact ⟨rfl, he⟩
    · simp only [if_neg he] at hmb
      exact absurd hmb (List.not_mem_nil mb)
  | cons kg0 rest ih =>
    obtain ⟨k0, g0⟩ := kg0
    obtain ⟨hnd, hval⟩ := h
    simp only [List.map_cons, List.nodup_cons] at hnd
    have hrest : GroupsWF rest :=
      ⟨hnd.2, fun kg hkg => hval kg (List.mem_cons_of_mem _ hkg)⟩
    simp only [groupsUpdate]
    by_cases hk : k0 = optKeyOf m bs
    · rw [if_pos hk]
      refine ⟨?_, ?_⟩
      · simp only [List.map_cons, List.nodup_cons]
        exact ⟨hnd.1, hnd.2⟩
      intro kg hkg
      rcases List.mem_cons.mp hkg with heq | hkg'
      · subst heq
        have h0 := hval (k0, g0) (List.mem_cons_self _ _)
        refine ⟨h0.1, ?_⟩
        intro mb hmb
        rcases List.mem_append.mp hmb with hmb' | hmb'
        · exact h0.2 mb hmb'
        · by_cases he : (m.spEnabled && bs.spEnabled) = true
          · simp only [if_pos he, List.mem_singleton] at hmb'
            subst hmb'
            exact ⟨hk.symm, he⟩
          · simp only [if_neg he] at hmb'
            exact absurd hmb' (List.not_mem_nil mb)
      · exact hval kg (List.mem_cons_of_mem _ hkg')
    · rw [if_neg hk]
      obtain ⟨hnd', hval'⟩ := ih hrest
      refine ⟨?_, ?_⟩
      · simp only [List.map_cons, List.nodup_cons]
        refine ⟨?_, hnd'⟩
        rcases groupsUpdate_keys m bs rest with hkeys | hkeys
        · rw [hkeys]; exact hnd.1
        · rw [hkeys]
          intro hc
          rcases List.mem_append.mp hc with hc | hc
          · exact hnd.1 hc
          · simp only [List.mem_singleton] at hc
            exact hk hc
      · intro kg hkg
        rcases List.mem_cons.mp hkg with heq | hkg'
        · subst heq
          exact hval (k0, g0) (List.mem_cons_self _ _)
        · exact hval' kg hkg'

theorem optGroups_wf (methods : List MethodCfg) :
    GroupsWF (optGroups methods) := by
  refine foldl_pres GroupsWF _ ?_ methods [] ⟨by simp, by simp⟩
  intro gs m hgs
  exact foldl_pres GroupsWF _ (fun gs bs h => groupsUpdate_wf m bs gs h)
    m.basisSets gs hgs

/-- The inner SP loop of one group appends exactly its sp emissions and
leaves the dedup set alone. -/
theorem spFold_chars (t : Task) (spcs : List (MethodCfg × BasisSet))
    (hen : ∀ mb ∈ spcs, (mb.1.spEnabled && mb.2.spEnabled) = true) :
    ∀ (emits : List (Except Unit BPath)) (seen : List DedupKey),
    spcs.foldl (fun acc2 mb =>
      let r2 := processFileYield acc2.2 mb.1 mb.2 .sp
        t.category t.branch t.species t.calcType t.catalystName
      (acc2.1 ++ r2.1.toList, r2.2)) (emits, seen)
    = (emits ++ spcs.map (fun mb => spEmit mb t), seen) := by
  induction spcs with
  | nil =>
    intro emits seen
    simp only [List.foldl_nil, List.map_nil, List.append_nil]
  | cons mb rest ih =>
    intro emits seen
    rw [List.foldl_cons]
    have he := hen mb (List.mem_cons_self _ _)
    have hstep : processFileYield seen mb.1 mb.2 .sp
        t.category t.branch t.species t.calcType t.catalystName
        = (some (spEmit mb t), seen) := by
      simp only [processFileYield, spEmit, he, Bool.not_true, Bool.false_eq_true,
        if_false]
    simp only [hstep, Option.toList_some]
    rw [ih (fun mb' hmb' => hen mb' (List.mem_cons_of_mem _ hmb')) _ seen]
    simp [List.append_assoc]

/-- One task's run over well-formed groups, none of whose keys were seen
yet, emits exactly `taskEmits` and records exactly one key per group. -/
theorem runTask_chars (groups : List (OptKey × OptGroup))
    (hnd : (groups.map Prod.fst).Nodup)
    (hcoh : ∀ kg ∈ groups, optKeyOf kg.2.optMethod kg.2.optBs = kg.1
      ∧ ∀ mb ∈ kg.2.spConfigs, optKeyOf mb.1 mb.2 = kg.1
          ∧ (mb.1.spEnabled && mb.2.spEnabled) = true)
    (t : Task) :
    ∀ (emits : List (Except Unit BPath)) (seen : List DedupKey),
    (∀ kg ∈ groups, keyOf kg t ∉ seen) →
    runTask groups (emits, seen) t
      = (emits ++ taskEmits groups t,
         seen ++ groups.map (fun kg => keyOf kg t)) := by
  induction groups with
  | nil =>
    intro emits seen _
    simp [runTask, taskEmits]
  | cons kg rest ih =>
    intro emits seen hseen
    simp only [List.map_cons, List.nodup_cons] at hnd
    have hc0 := hcoh kg (List.mem_cons_self _ _)
    simp only [runTask, List.foldl_cons]
    have hkey : (⟨kg.2.optMethod.nameOpt, kg.2.optBs.opt,
        kg.2.optMethod.dispOpt, kg.2.optMethod.solvOpt, t.category, t.branch,
        t.species, t.calcType, t.catalystName⟩ : DedupKey) ∉ seen :=
      hseen kg (List.mem_cons_self _ _)
    have hopt : processFileYield seen kg.2.optMethod kg.2.optBs .opt
        t.category t.branch t.species t.calcType t.catalystName
        = (some (optEmit kg t), seen ++ [keyOf kg t]) := by
      simp only [processFileYield]
      rw [if_neg hkey]
      exact rfl
    simp only [hopt, Option.toList_some]
    rw [spFold_chars t kg.2.spConfigs (fun mb hmb => (hc0.2 mb hmb).2)]
    have hrest := ih hnd.2
      (fun kg' hkg' => hcoh kg' (List.mem_cons_of_mem _ hkg'))
      (emits ++ [optEmit kg t] ++ kg.2.spConfigs.map (fun mb => spEmit mb t))
      (seen ++ [keyOf kg t])
      (by
        intro kg' hkg' hc
        rcases List.mem_append.mp hc with hc | hc
        · exact hseen kg' (List.mem_cons_of_mem _ hkg') hc
        · simp only [List.mem_singleton] at hc
          have hk' : optKeyOf kg'.2.optMethod kg'.2.optBs = kg'.1 :=
            (hcoh kg' (List.mem_cons_of_mem _ hkg')).1
          have hkeq : kg'.1 = kg.1 := by
            rw [← hk', ← hc0.1]
            simp only [keyOf, DedupKey.mk.injEq] at hc
            simp only [optKeyOf, Prod.mk.injEq]
            exact ⟨hc.1, hc.2.2.1, hc.2.1, hc.2.2.2.1⟩
          exact hnd.1 (hkeq ▸ List.mem_map_of_mem Prod.fst hkg'))
    simp only [runTask] at hrest
    rw [hrest]
    simp only [taskEmits, List.flatMap_cons, List.map_cons, Prod.mk.injEq]
    constructor <;> simp [List.append_assoc]

/-- Keys determine the task. -/
theorem keyOf_task (kg1 kg2 : OptKey × OptGroup) (t1 t2 : Task)
    (h : keyOf kg1 t1 = keyOf kg2 t2) : t1 = t2 := by
  simp only [keyOf, DedupKey.mk.injEq] at h
  obtain ⟨c1, b1, s1, ct1, cn1⟩ := t1
  obtain ⟨c2, b2, s2, ct2, cn2⟩ := t2
  simp only [Task.mk.injEq]
  exact ⟨h.2.2.2.2.1, h.2.2.2.2.2.1, h.2.2.2.2.2.2.1, h.2.2.2.2.2.2.2.1,
    h.2.2.2.2.2.2.2.2⟩

/-- The task loop over pairwise-distinct tasks with fresh dedup keys is
a pure concatenation of per-task emissions. -/
theorem tasksFold_chars (groups : List (OptKey × OptGroup))
    (hnd : (groups.map Prod.fst).Nodup)
    (hcoh : ∀ kg ∈ groups, optKeyOf kg.2.optMethod kg.2.optBs = kg.1
      ∧ ∀ mb ∈ kg.2.spConfigs, optKeyOf mb.1 mb.2 = kg.1
          ∧ (mb.1.spEnabled && mb.2.spEnabled) = true) :
    ∀ (ts : List Task), ts.Nodup →
    ∀ (emits : List (Except Unit BPath)) (seen : List DedupKey),
    (∀ t ∈ ts, ∀ kg ∈ groups, keyOf kg t ∉ seen) →
    ts.foldl (runTask groups) (emits, seen)
      = (emits ++ ts.flatMap (taskEmits groups),
         seen ++ ts.flatMap (fun t => groups.map (fun kg => keyOf kg t))) := by
  intro ts
  induction ts with
  | nil =>
    intro _ emits seen _
    simp
  | cons t rest ih =>
    intro hts emits seen hseen
    simp only [List.nodup_cons] at hts
    rw [List.foldl_cons,
      runTask_chars groups hnd hcoh t emits seen
        (fun kg hkg => hseen t (List.mem_cons_self _ _) kg hkg)]
    rw [ih hts.2 _ _ ?_]
    · simp [List.append_assoc, List.flatMap_cons]
    · intro t' ht' kg hkg hc
      rcases List.mem_append.mp hc with hc | hc
      · exact hseen t' (List.mem_cons_of_mem _ ht') kg hkg hc
      · rw [List.mem_map] at hc
        obtain ⟨kg', _, hk'⟩ := hc
        have ht : t = t' := keyOf_task kg' kg t t' hk'
        rw [← ht] at ht'
        exact hts.1 ht'

/-- Under pairwise-distinct tasks, the yielded list is the pure
concatenation of every task's emissions over every group. -/
theorem processInputFiles_chars (cfg : Config)
    (htasks : (tasksOf cfg).Nodup) :
    processInputFiles cfg
      = (tasksOf cfg).flatMap (taskEmits (optGroups cfg.methods)) := by
  obtain ⟨hnd, hcoh⟩ := optGroups_wf cfg.methods
  rw [processInputFiles,
    tasksFold_chars (optGroups cfg.methods) hnd hcoh (tasksOf cfg) htasks
      [] [] (by simp)]
  simp


/-! ## Path-shape lemmas -/

theorem core_nocat_rp (b : List Char) (sf : Option (List Char))
    (br species ct cn sx : List Char)
    (hbr : br = "reactants".data ∨ br = "products".data) :
    buildFilePathCore b sf "no_cat".data br species ct cn sx
      = .ok ([b, "no_cat".data, br, species] ++ sf.toList
        ++ [species ++ sx]) := by
  unfold buildFilePathCore
  rw [if_pos rfl, if_pos hbr]

theorem core_nocat_ts (b : List Char) (sf : Option (List Char))
    (species ct cn sx : List Char) :
    buildFilePathCore b sf "no_cat".data "ts".data species ct cn sx
      = .ok ([b, "no_cat".data, "ts".data] ++ sf.toList
        ++ ["tscomplex".data ++ sx]) := by
  unfold buildFilePathCore
  rw [if_pos rfl, if_neg (by decide), if_pos rfl]

theorem core_cat_preTS (b : List Char) (sf : Option (List Char))
    (species ct cn sx : List Char) (hcn : cn ≠ []) :
    buildFilePathCore b sf "cat".data "preTS".data species ct cn sx
      = .ok ([b, cn, "preTS".data, species, ct] ++ sf.toList
        ++ ["preTS_".data ++ species ++ "_".data ++ ct ++ sx]) := by
  unfold buildFilePathCore
  rw [if_neg (by decide), if_pos rfl, if_neg hcn, if_pos rfl]

theorem core_cat_postTS (b : List Char) (sf : Option (List Char))
    (species ct cn sx : List Char) (hcn : cn ≠ []) :
    buildFilePathCore b sf "cat".data "postTS".data species ct cn sx
      = .ok ([b, cn, "postTS".data, species, ct] ++ sf.toList
        ++ ["postTS_".data ++ species ++ "_".data ++ ct ++ sx]) := by
  unfold buildFilePathCore
  rw [if_neg (by decide), if_pos rfl, if_neg hcn, if_neg (by decide),
    if_pos rfl]

theorem core_cat_ts (b : List Char) (sf : Option (List Char))
    (species ct cn sx : List Char) (hcn : cn ≠ []) :
    buildFilePathCore b sf "cat".data "ts".data species ct cn sx
      = .ok ([b, cn, "ts".data, ct] ++ sf.toList
        ++ ["ts_".data ++ cn ++ "-tscomplex_".data ++ ct ++ sx]) := by
  unfold buildFilePathCore
  rw [if_neg (by decide), if_pos rfl, if_neg hcn, if_neg (by decide),
    if_neg (by decide), if_pos rfl]

theorem core_cat_cat (b : List Char) (sf : Option (List Char))
    (species ct cn sx : List Char) (hcn : cn ≠ []) :
    buildFilePathCore b sf "cat".data "cat".data species ct cn sx
      = .ok ([b, cn, "cat".data] ++ sf.toList ++ [cn ++ sx]) := by
  unfold buildFilePathCore
  rw [if_neg (by decide), if_pos rfl, if_neg hcn, if_neg (by decide),
    if_neg (by decide), if_neg (by decide), if_pos rfl]

/-- Every well-formed task's path builds successfully. -/
theorem core_ok (b : List Char) (sf : Option (List Char)) (t : Task)
    (sx : List Char) (hwf : TaskWF t) :
    ∃ p, buildFilePathCore b sf t.category t.branch t.species t.calcType
      t.catalystName sx = .ok p := by
  obtain ⟨c, br, species, ct, cn⟩ := t
  rcases hwf with ⟨hc, hn, hct, hbr | ⟨hbr, hsp⟩⟩
    | ⟨hc, hn, hnc, hbr | hbr | ⟨hbr, hsp⟩ | ⟨hbr, hsp, hct⟩⟩ <;>
      dsimp only at *
  · subst hc
    exact ⟨_, core_nocat_rp b sf br species ct cn sx hbr⟩
  · subst hc; subst hbr
    exact ⟨_, core_nocat_ts b sf species ct cn sx⟩
  · subst hc; subst hbr
    exact ⟨_, core_cat_preTS b sf species ct cn sx hn⟩
  · subst hc; subst hbr
    exact ⟨_, core_cat_postTS b sf species ct cn sx hn⟩
  · subst hc; subst hbr
    exact ⟨_, core_cat_ts b sf species ct cn sx hn⟩
  · subst hc; subst hbr
    exact ⟨_, core_cat_cat b sf species ct cn sx hn⟩

/-- The built path starts with the base folder. -/
theorem core_head (b : List Char) (sf : Option (List Char)) (t : Task)
    (sx : List Char) (p : BPath) (hwf : TaskWF t)
    (h : buildFilePathCore b sf t.category t.branch t.species t.calcType
      t.catalystName sx = .ok p) : p.head? = some b := by
  obtain ⟨c, br, species, ct, cn⟩ := t
  rcases hwf with ⟨hc, hn, hct, hbr | ⟨hbr, hsp⟩⟩
    | ⟨hc, hn, hnc, hbr | hbr | ⟨hbr, hsp⟩ | ⟨hbr, hsp, hct⟩⟩ <;>
      dsimp only at *
  · subst hc
    rw [core_nocat_rp b sf br species ct cn sx hbr] at h
    injection h with h
    subst h
    rfl
  · subst hc; subst hbr
    rw [core_nocat_ts b sf species ct cn sx] at h
    injection h with h
    subst h
    rfl
  · subst hc; subst hbr
    rw [core_cat_preTS b sf species ct cn sx hn] at h
    injection h with h
    subst h
    rfl
  · subst hc; subst hbr
    rw [core_cat_postTS b sf species ct cn sx hn] at h
    injection h with h
    subst h
    rfl
  · subst hc; subst hbr
    rw [core_cat_ts b sf species ct cn sx hn] at h
    injection h with h
    subst h
    rfl
  · subst hc; subst hbr
    rw [core_cat_cat b sf species ct cn sx hn] at h
    injection h with h
    subst h
    rfl

/-- The built path ends in a file name carrying the mode suffix. -/
theorem core_last (b : List Char) (sf : Option (List Char)) (t : Task)
    (sx : List Char) (p : BPath) (hwf : TaskWF t)
    (h : buildFilePathCore b sf t.category t.branch t.species t.calcType
      t.catalystName sx = .ok p) : ∃ x, p.getLast? = some (x ++ sx) := by
  obtain ⟨c, br, species, ct, cn⟩ := t
  rcases hwf with ⟨hc, hn, hct, hbr | ⟨hbr, hsp⟩⟩
    | ⟨hc, hn, hnc, hbr | hbr | ⟨hbr, hsp⟩ | ⟨hbr, hsp, hct⟩⟩ <;>
      dsimp only at *
  · subst hc
    rw [core_nocat_rp b sf br species ct cn sx hbr] at h
    injection h with h
    subst h
    exact ⟨species, List.getLast?_concat _⟩
  · subst hc; subst hbr
    rw [core_nocat_ts b sf species ct cn sx] at h
    injection h with h
    subst h
    exact ⟨"tscomplex".data, List.getLast?_concat _⟩
  · subst hc; subst hbr
    rw [core_cat_preTS b sf species ct cn sx hn] at h
    injection h with h
    subst h
    exact ⟨_, by rw [show "preTS_".data ++ species ++ "_".data ++ ct ++ sx
      = ("preTS_".data ++ species ++ "_".data ++ ct) ++ sx by
        simp [List.append_assoc], List.getLast?_concat]⟩
  · subst hc; subst hbr
    rw [core_cat_postTS b sf species ct cn sx hn] at h
    injection h with h
    subst h
    exact ⟨_, by rw [show "postTS_".data ++ species ++ "_".data ++ ct ++ sx
      = ("postTS_".data ++ species ++ "_".data ++ ct) ++ sx by
        simp [List.append_assoc], List.getLast?_concat]⟩
  · subst hc; subst hbr
    rw [core_cat_ts b sf species ct cn sx hn] at h
    injection h with h
    subst h
    exact ⟨_, by rw [show "ts_".data ++ cn ++ "-tscomplex_".data ++ ct ++ sx
      = ("ts_".data ++ cn ++ "-tscomplex_".data ++ ct) ++ sx by
        simp [List.append_assoc], List.getLast?_concat]⟩
  · subst hc; subst hbr
    rw [core_cat_cat b sf species ct cn sx hn] at h
    injection h with h
    subst h
    exact ⟨cn, List.getLast?_concat _⟩

theorem optin_ne_spin (x y : List Char) :
    x ++ "_opt.in".data ≠ y ++ "_sp.in".data := by
  intro h
  have h1 : "_opt.in".data <:+ (y ++ "_sp.in".data) :=
    h ▸ List.suffix_append x "_opt.in".data
  have h2 : "_sp.in".data <:+ (y ++ "_sp.in".data) :=
    List.suffix_append y "_sp.in".data
  rcases List.suffix_or_suffix_of_suffix h1 h2 with h' | h'
  · exact absurd h' (by decide)
  · exact absurd h' (by decide)

/-- Reading an OPT-shaped path back succeeds and recovers base folder
and task. -/
theorem decodeOpt_spec (b : List Char) (t : Task) (sx : List Char)
    (p : BPath) (hwf : TaskWF t)
    (h : buildFilePathCore b none t.category t.branch t.species t.calcType
      t.catalystName sx = .ok p) : decodeOpt p = some (b, t) := by
  obtain ⟨c, br, species, ct, cn⟩ := t
  rcases hwf with ⟨hc, hn, hct, hbr | ⟨hbr, hsp⟩⟩
    | ⟨hc, hn, hnc, hbr | hbr | ⟨hbr, hsp⟩ | ⟨hbr, hsp, hct⟩⟩ <;>
      dsimp only at *
  · subst hc; subst hn; subst hct
    rw [core_nocat_rp b none br species [] [] sx hbr] at h
    injection h with h
    subst h
    simp only [Option.toList_none, List.append_nil, List.cons_append,
      List.nil_append, decodeOpt]
    simp
  · subst hc; subst hn; subst hct; subst hbr; subst hsp
    rw [core_nocat_ts b none "tscomplex".data [] [] sx] at h
    injection h with h
    subst h
    simp only [Option.toList_none, List.append_nil, List.cons_append,
      List.nil_append, decodeOpt]
    simp
  · subst hc; subst hbr
    rw [core_cat_preTS b none species ct cn sx hn] at h
    injection h with h
    subst h
    simp only [Option.toList_none, List.append_nil, List.cons_append,
      List.nil_append, decodeOpt]
  · subst hc; subst hbr
    rw [core_cat_postTS b none species ct cn sx hn] at h
    injection h with h
    subst h
    simp only [Option.toList_none, List.append_nil, List.cons_append,
      List.nil_append, decodeOpt]
  · subst hc; subst hbr; subst hsp
    rw [core_cat_ts b none ("ts_".data ++ cn ++ "-tscomplex".data) ct cn sx
      hn] at h
    injection h with h
    subst h
    simp only [Option.toList_none, List.append_nil, List.cons_append,
      List.nil_append, decodeOpt]
    simp [hnc]
  · subst hc; subst hbr; subst hsp; subst hct
    rw [core_cat_cat b none species [] species sx hn] at h
    injection h with h
    subst h
    simp only [Option.toList_none, List.append_nil, List.cons_append,
      List.nil_append, decodeOpt]
    simp [hnc]

/-- Reading an SP-shaped path back succeeds and recovers base folder,
sp folder and task. -/
theorem decodeSp_spec (b v : List Char) (t : Task) (sx : List Char)
    (p : BPath) (hwf : TaskWF t)
    (h : buildFilePathCore b (some v) t.category t.branch t.species
      t.calcType t.catalystName sx = .ok p) :
    decodeSp p = some (b, v, t) := by
  obtain ⟨c, br, species, ct, cn⟩ := t
  rcases hwf with ⟨hc, hn, hct, hbr | ⟨hbr, hsp⟩⟩
    | ⟨hc, hn, hnc, hbr | hbr | ⟨hbr, hsp⟩ | ⟨hbr, hsp, hct⟩⟩ <;>
      dsimp only at *
  · subst hc; subst hn; subst hct
    rw [core_nocat_rp b (some v) br species [] [] sx hbr] at h
    injection h with h
    subst h
    simp only [Option.toList_some, List.cons_append, List.nil_append,
      decodeSp]
    simp
  · subst hc; subst hn; subst hct; subst hbr; subst hsp
    rw [core_nocat_ts b (some v) "tscomplex".data [] [] sx] at h
    injection h with h
    subst h
    simp only [Option.toList_some, List.cons_append, List.nil_append,
      decodeSp]
    simp
  · subst hc; subst hbr
    rw [core_cat_preTS b (some v) species ct cn sx hn] at h
    injection h with h
    subst h
    simp only [Option.toList_some, List.cons_append, List.nil_append,
      decodeSp]
  · subst hc; subst hbr
    rw [core_cat_postTS b (some v) species ct cn sx hn] at h
    injection h with h
    subst h
    simp only [Option.toList_some, List.cons_append, List.nil_append,
      decodeSp]
  · subst hc; subst hbr; subst hsp
    rw [core_cat_ts b (some v) ("ts_".data ++ cn ++ "-tscomplex".data) ct cn
      sx hn] at h
    injection h with h
    subst h
    simp only [Option.toList_some, List.cons_append, List.nil_append,
      decodeSp]
    simp [hnc]
  · subst hc; subst hbr; subst hsp; subst hct
    rw [core_cat_cat b (some v) species [] species sx hn] at h
    injection h with h
    subst h
    simp only [Option.toList_some, List.cons_append, List.nil_append,
      decodeSp]
    simp [hnc]


/-! ## Enumeration well-formedness and the uniqueness theorem -/

theorem tasksOf_wf (cfg : Config)
    (hcat : ∀ c ∈ cfg.catalysts, c.nameOpt ≠ [] ∧ c.nameOpt ≠ "no_cat".data) :
    ∀ t ∈ tasksOf cfg, TaskWF t := by
  intro t ht
  rcases List.mem_append.mp ht with ht | ht
  · rcases List.mem_append.mp ht with ht | ht
    · rcases List.mem_append.mp ht with ht | ht
      · rcases List.mem_append.mp ht with ht | ht
        · obtain ⟨r, _, rfl⟩ := List.mem_map.mp ht
          exact Or.inl ⟨rfl, rfl, rfl, Or.inl (Or.inl rfl)⟩
        · obtain ⟨p, _, rfl⟩ := List.mem_map.mp ht
          exact Or.inl ⟨rfl, rfl, rfl, Or.inl (Or.inr rfl)⟩
      · rw [List.mem_singleton] at ht
        subst ht
        exact Or.inl ⟨rfl, rfl, rfl, Or.inr ⟨rfl, rfl⟩⟩
    · split at ht
      · obtain ⟨combo, _, rfl⟩ := List.mem_map.mp ht
        exact Or.inl ⟨rfl, rfl, rfl, Or.inl (Or.inl rfl)⟩
      · exact absurd ht (List.not_mem_nil t)
  · rw [List.mem_flatMap] at ht
    obtain ⟨c, hc, ht⟩ := ht
    obtain ⟨hne, hnc⟩ := hcat c hc
    rcases List.mem_append.mp ht with ht | ht
    · rcases List.mem_append.mp ht with ht | ht
      · rcases List.mem_append.mp ht with ht | ht
        · rw [List.mem_singleton] at ht
          subst ht
          exact Or.inr ⟨rfl, hne, hnc, Or.inr (Or.inr (Or.inr ⟨rfl, rfl, rfl⟩))⟩
        · rw [List.mem_flatMap] at ht
          obtain ⟨combo, _, ht⟩ := ht
          obtain ⟨ct, _, rfl⟩ := List.mem_map.mp ht
          exact Or.inr ⟨rfl, hne, hnc, Or.inl rfl⟩
      · rw [List.mem_flatMap] at ht
        obtain ⟨combo, _, ht⟩ := ht
        obtain ⟨ct, _, rfl⟩ := List.mem_map.mp ht
        exact Or.inr ⟨rfl, hne, hnc, Or.inr (Or.inl rfl)⟩
    · obtain ⟨ct, _, rfl⟩ := List.mem_map.mp ht
      exact Or.inr ⟨rfl, hne, hnc, Or.inr (Or.inr (Or.inl ⟨rfl, rfl⟩))⟩

theorem optEmit_eq (kg : OptKey × OptGroup) (t : Task) :
    optEmit kg t = buildFilePathCore (groupFolder kg) none t.category
      t.branch t.species t.calcType t.catalystName "_opt.in".data := rfl

theorem spEmit_eq (mb : MethodCfg × BasisSet) (t : Task) :
    spEmit mb t = buildFilePathCore
      (buildMethodFolderName mb.1.nameOpt mb.2.opt mb.1.dispOpt mb.1.solvOpt)
      (some (spFolderName mb)) t.category t.branch t.species t.calcType
      t.catalystName "_sp.in".data := rfl

/-- OPT emissions are injective in folder and task. -/
theorem optEmit_inj (kg1 kg2 : OptKey × OptGroup) (t1 t2 : Task)
    (hwf1 : TaskWF t1) (hwf2 : TaskWF t2)
    (h : optEmit kg1 t1 = optEmit kg2 t2) :
    groupFolder kg1 = groupFolder kg2 ∧ t1 = t2 := by
  rw [optEmit_eq, optEmit_eq] at h
  obtain ⟨p1, hp1⟩ := core_ok (groupFolder kg1) none t1 "_opt.in".data hwf1
  obtain ⟨p2, hp2⟩ := core_ok (groupFolder kg2) none t2 "_opt.in".data hwf2
  rw [hp1, hp2] at h
  injection h with h
  subst h
  have hd1 := decodeOpt_spec (groupFolder kg1) t1 "_opt.in".data p1 hwf1 hp1
  have hd2 := decodeOpt_spec (groupFolder kg2) t2 "_opt.in".data p1 hwf2 hp2
  rw [hd1] at hd2
  injection hd2 with hd2
  exact ⟨congrArg Prod.fst hd2, congrArg Prod.snd hd2⟩

/-- SP emissions are injective in base folder, sp folder and task. -/
theorem spEmit_inj (mb1 mb2 : MethodCfg × BasisSet) (t1 t2 : Task)
    (hwf1 : TaskWF t1) (hwf2 : TaskWF t2)
    (h : spEmit mb1 t1 = spEmit mb2 t2) :
    buildMethodFolderName mb1.1.nameOpt mb1.2.opt mb1.1.dispOpt mb1.1.solvOpt
      = buildMethodFolderName mb2.1.nameOpt mb2.2.opt mb2.1.dispOpt
          mb2.1.solvOpt
    ∧ spFolderName mb1 = spFolderName mb2 ∧ t1 = t2 := by
  rw [spEmit_eq, spEmit_eq] at h
  obtain ⟨p1, hp1⟩ := core_ok _ (some (spFolderName mb1)) t1 "_sp.in".data hwf1
  obtain ⟨p2, hp2⟩ := core_ok _ (some (spFolderName mb2)) t2 "_sp.in".data hwf2
  rw [hp1, hp2] at h
  injection h with h
  subst h
  have hd1 := decodeSp_spec _ (spFolderName mb1) t1 "_sp.in".data p1 hwf1 hp1
  have hd2 := decodeSp_spec _ (spFolderName mb2) t2 "_sp.in".data p1 hwf2 hp2
  rw [hd1] at hd2
  injection hd2 with hd2
  refine ⟨congrArg Prod.fst hd2, ?_, ?_⟩
  · exact congrArg (fun q => q.2.1) hd2
  · exact congrArg (fun q => q.2.2) hd2

/-- An OPT emission never equals an SP emission. -/
theorem optEmit_ne_spEmit (kg : OptKey × OptGroup)
    (mb : MethodCfg × BasisSet) (t1 t2 : Task)
    (hwf1 : TaskWF t1) (hwf2 : TaskWF t2) :
    optEmit kg t1 ≠ spEmit mb t2 := by
  intro h
  rw [optEmit_eq, spEmit_eq] at h
  obtain ⟨p1, hp1⟩ := core_ok (groupFolder kg) none t1 "_opt.in".data hwf1
  obtain ⟨p2, hp2⟩ := core_ok _ (some (spFolderName mb)) t2 "_sp.in".data hwf2
  rw [hp1, hp2] at h
  injection h with h
  subst h
  obtain ⟨x1, hl1⟩ := core_last _ _ _ _ _ hwf1 hp1
  obtain ⟨x2, hl2⟩ := core_last _ _ _ _ _ hwf2 hp2
  rw [hl1] at hl2
  injection hl2 with hl2
  exact optin_ne_spin x1 x2 hl2

/-- The sp base folder coincides with its group's folder. -/
theorem spBase_eq_groupFolder (kg : OptKey × OptGroup)
    (mb : MethodCfg × BasisSet)
    (hc : optKeyOf mb.1 mb.2 = kg.1)
    (hg : optKeyOf kg.2.optMethod kg.2.optBs = kg.1) :
    buildMethodFolderName mb.1.nameOpt mb.2.opt mb.1.dispOpt mb.1.solvOpt
      = groupFolder kg := by
  have heq := hc.trans hg.symm
  simp only [optKeyOf, Prod.mk.injEq] at heq
  rw [groupFolder, heq.1, heq.2.1, heq.2.2.1, heq.2.2.2]

/-- Every path a group emits (for a well-formed task) starts with the
group's folder. -/
theorem emit_head (kg : OptKey × OptGroup) (t : Task) (hwf : TaskWF t)
    (hg : optKeyOf kg.2.optMethod kg.2.optBs = kg.1)
    (hcoh : ∀ mb ∈ kg.2.spConfigs, optKeyOf mb.1 mb.2 = kg.1)
    (e : Except Unit BPath)
    (he : e ∈ optEmit kg t :: kg.2.spConfigs.map (fun mb => spEmit mb t)) :
    ∃ p, e = .ok p ∧ p.head? = some (groupFolder kg) := by
  rcases List.mem_cons.mp he with he | he
  · obtain ⟨p, hp⟩ := core_ok (groupFolder kg) none t "_opt.in".data hwf
    rw [he, optEmit_eq]
    exact ⟨p, hp, core_head _ _ _ _ _ hwf hp⟩
  · rw [List.mem_map] at he
    obtain ⟨mb, hmb, rfl⟩ := he
    obtain ⟨p, hp⟩ := core_ok
      (buildMethodFolderName mb.1.nameOpt mb.2.opt mb.1.dispOpt mb.1.solvOpt)
      (some (spFolderName mb)) t "_sp.in".data hwf
    rw [spEmit_eq]
    refine ⟨p, hp, ?_⟩
    rw [core_head _ _ _ _ _ hwf hp,
      spBase_eq_groupFolder kg mb (hcoh mb hmb) hg]

theorem nodup_map_of_nodup_map {α β γ : Type} (f : α → β) (g : α → γ)
    (l : List α) (hg : (l.map g).Nodup)
    (h : ∀ x ∈ l, ∀ y ∈ l, f x = f y → g x = g y) : (l.map f).Nodup := by
  induction l with
  | nil => simp
  | cons x xs ih =>
    simp only [List.map_cons, List.nodup_cons] at hg ⊢
    refine ⟨?_, ih hg.2 (fun a ha b hb =>
      h a (List.mem_cons_of_mem _ ha) b (List.mem_cons_of_mem _ hb))⟩
    intro hc
    rw [List.mem_map] at hc
    obtain ⟨y, hy, hfy⟩ := hc
    have hgy := h y (List.mem_cons_of_mem _ hy) x (List.mem_cons_self _ _) hfy
    exact hg.1 (hgy ▸ List.mem_map_of_mem g hy)

theorem nodup_flatMap_custom {α β : Type} (l : List α) (f : α → List β)
    (hl : l.Nodup) (h1 : ∀ x ∈ l, (f x).Nodup)
    (h2 : ∀ x ∈ l, ∀ y ∈ l, x ≠ y → ∀ e ∈ f x, e ∉ f y) :
    (l.flatMap f).Nodup := by
  induction l with
  | nil => simp
  | cons x xs ih =>
    rw [List.flatMap_cons, List.nodup_append]
    rw [List.nodup_cons] at hl
    refine ⟨h1 x (List.mem_cons_self _ _),
      ih hl.2
        (fun a ha => h1 a (List.mem_cons_of_mem _ ha))
        (fun a ha b hb hne => h2 a (List.mem_cons_of_mem _ ha) b
          (List.mem_cons_of_mem _ hb) hne), ?_⟩
    intro e he he'
    rw [List.mem_flatMap] at he'
    obtain ⟨y, hy, hey⟩ := he'
    exact h2 x (List.mem_cons_self _ _) y (List.mem_cons_of_mem _ hy)
      (fun hc => hl.1 (hc ▸ hy)) e he hey

/-- **C1 (amended).** For every sane configuration — catalysts with
nonempty names other than `no_cat`, pairwise-distinct task tuples,
pairwise-distinct opt method-combo folder names across opt groups, and
pairwise-distinct sp combo folder names within each group — the
enumeration of `process_input_files` (as `iter_input_paths` consumes
it) yields pairwise-distinct file paths. -/
theorem C1_unique_paths_amended (cfg : Config) (h : ConfigSane cfg) :
    (processInputFiles cfg).Nodup := by
  obtain ⟨hcat, htasks, hS1, hS2⟩ := h
  obtain ⟨hgnd, hgcoh⟩ := optGroups_wf cfg.methods
  have hwfall : ∀ t ∈ tasksOf cfg, TaskWF t := tasksOf_wf cfg hcat
  have hgroupsnd : (optGroups cfg.methods).Nodup := hS1.of_map
  have hfolder_inj : ∀ kg1 ∈ optGroups cfg.methods,
      ∀ kg2 ∈ optGroups cfg.methods,
      groupFolder kg1 = groupFolder kg2 → kg1 = kg2 :=
    fun kg1 h1 kg2 h2 hf => List.inj_on_of_nodup_map hS1 h1 h2 hf
  rw [processInputFiles_chars cfg htasks]
  refine nodup_flatMap_custom _ _ htasks ?_ ?_
  · intro t ht
    have hwf := hwfall t ht
    simp only [taskEmits]
    refine nodup_flatMap_custom _ _ hgroupsnd ?_ ?_
    · intro kg hkg
      rw [List.nodup_cons]
      constructor
      · intro hc
        rw [List.mem_map] at hc
        obtain ⟨mb, _, hemb⟩ := hc
        exact optEmit_ne_spEmit kg mb t t hwf hwf hemb.symm
      · refine nodup_map_of_nodup_map _ spFolderName _ (hS2 kg hkg) ?_
        intro mb1 _ mb2 _ heq
        exact (spEmit_inj mb1 mb2 t t hwf hwf heq).2.1
    · intro kg1 hkg1 kg2 hkg2 hne e he1 he2
      obtain ⟨p1, hep1, hh1⟩ := emit_head kg1 t hwf (hgcoh kg1 hkg1).1
        (fun mb hmb => ((hgcoh kg1 hkg1).2 mb hmb).1) e he1
      obtain ⟨p2, hep2, hh2⟩ := emit_head kg2 t hwf (hgcoh kg2 hkg2).1
        (fun mb hmb => ((hgcoh kg2 hkg2).2 mb hmb).1) e he2
      rw [hep1] at hep2
      injection hep2 with hep2
      subst hep2
      rw [hh1] at hh2
      injection hh2 with hh2
      exact hne (hfolder_inj kg1 hkg1 kg2 hkg2 hh2)
  · intro t1 ht1 t2 ht2 hne e he1 he2
    have hwf1 := hwfall t1 ht1
    have hwf2 := hwfall t2 ht2
    simp only [taskEmits, List.mem_flatMap] at he1 he2
    obtain ⟨kg1, _, he1⟩ := he1
    obtain ⟨kg2, _, he2⟩ := he2
    rcases List.mem_cons.mp he1 with he1 | he1 <;>
      rcases List.mem_cons.mp he2 with he2 | he2
    · subst he1
      exact hne (optEmit_inj kg1 kg2 t1 t2 hwf1 hwf2 he2).2
    · subst he1
      rw [List.mem_map] at he2
      obtain ⟨mb2, _, he2⟩ := he2
      exact optEmit_ne_spEmit kg1 mb2 t1 t2 hwf1 hwf2 he2.symm
    · subst he2
      rw [List.mem_map] at he1
      obtain ⟨mb1, _, he1⟩ := he1
      exact optEmit_ne_spEmit kg2 mb1 t2 t1 hwf2 hwf1 he1.symm
    · rw [List.mem_map] at he1 he2
      obtain ⟨mb1, _, he1⟩ := he1
      obtain ⟨mb2, _, he2⟩ := he2
      exact hne (spEmit_inj mb1 mb2 t1 t2 hwf1 hwf2 (he1.trans he2.symm)).2.2


/-- **C1 counterexample.** On `C1cfg` — two methods whose distinct opt
parameters (method `m_d` with no dispersion vs method `m` with
dispersion `d`) alias to the same method-combo folder name `m_d_B` —
the enumeration yields the OPT path
`m_d_B/no_cat/reactants/R/R_opt.in` twice: two distinct identities
share one file path, and one tuple is yielded twice, so the uniqueness
invariant fails. -/
theorem C1_counterexample :
    ¬ (processInputFiles C1cfg).Nodup
    ∧ (processInputFiles C1cfg).count
        (.ok ["m_d_B".data, "no_cat".data, "reactants".data, "R".data,
          "R_opt.in".data]) = 2 := by
  constructor
  · decide
  · decide

/-- Witness for the amended C1 at `C1cfgSane` (one SP-enabled method,
two reactants, one product, one catalyst): the configuration is sane
and its enumerated paths are pairwise distinct. -/
theorem C1_witness :
    ConfigSane C1cfgSane ∧ (processInputFiles C1cfgSane).Nodup :=
  ⟨by decide, C1_unique_paths_amended C1cfgSane (by decide)⟩

end PyA3EDA
